import Mathlib

/-!
Shallow embedding of the kaleys/my-blockchain ledger core
(src/server/src/modules/Block.js, the Transaction and UTXOSet modules, and
src/server/src/utils/CryptoUtils.js) together with proofs about the claims
of the specification.

Modelling conventions:
* JavaScript numbers that hold token amounts are modelled as rationals
  (all arithmetic the code performs on them is exact on the values that
  occur); timestamps are integers (milliseconds); heights, nonces and
  difficulties are naturals.
* SHA-256 and the other hash primitives of CryptoUtils are external
  collaborators; every definition that hashes is parameterised by an
  abstract hash function H over the exact pre-image string the code
  builds.  Signature verification is likewise a parameter V, applied to a
  record holding the exact fields the code serialises into the signed
  message.
* JS Map and Set are modelled as insertion-ordered association lists with
  the same update semantics (set keeps the position of an existing key,
  delete removes it, a fresh key is appended).
* The map key template txId + colon + outputIndex is modelled as the pair
  (txId, outputIndex); the two are in bijection for the colon-free 64-hex
  transaction ids the system produces.
* Exceptions are modelled with Except; JS code that throws mid-loop and is
  caught by a caller that restores from a snapshot is observationally the
  same as an Except that carries no partial state.
-/

namespace MyBC

/-- JS Map.get: first (unique) binding for the key. -/
def mapGet [DecidableEq κ] (k : κ) : List (κ × α) → Option α
  | [] => none
  | (k', v) :: rest => if k' = k then some v else mapGet k rest

/-- JS Map.set: overwrite in place if the key exists, else append. -/
def mapSet [DecidableEq κ] (k : κ) (v : α) : List (κ × α) → List (κ × α)
  | [] => [(k, v)]
  | (k', v') :: rest =>
    if k' = k then (k, v) :: rest else (k', v') :: mapSet k v rest

/-- JS Map.delete: remove the binding for the key, if any. -/
def mapDel [DecidableEq κ] (k : κ) : List (κ × α) → List (κ × α)
  | [] => []
  | (k', v') :: rest => if k' = k then rest else (k', v') :: mapDel k rest

/-- JS Set.add: append if absent. -/
def setAdd [DecidableEq κ] (k : κ) (s : List κ) : List κ :=
  if k ∈ s then s else s ++ [k]

/-- JS Set.delete. -/
def setDel [DecidableEq κ] (k : κ) (s : List κ) : List κ :=
  s.erase k

/-- Executable no-duplicates check for key lists. -/
def nodupB [DecidableEq κ] : List κ → Bool
  | [] => true
  | k :: rest => !(decide (k ∈ rest)) && nodupB rest

/-! ## CryptoUtils (src/server/src/utils/CryptoUtils.js) -/

/-- The string of 64 zero characters: the coinbase sentinel transaction id
and the previous-hash of the genesis block. -/
def zeros64 : String := "0000000000000000000000000000000000000000000000000000000000000000"

/-- The coinbase output index 0xffffffff. -/
def coinbaseOutputIndex : Nat := 4294967295

/-- CryptoUtils lines 76-79: the difficulty-target check — the hash must
start with difficulty-many zero hex digits.  In the source this first
declaration of isValidHash is shadowed by a second one further down the
class body, so no call site actually reaches it. -/
def isValidHashPoW (hash : String) (difficulty : Nat) : Bool :=
  decide (hash.toList.take difficulty = List.replicate difficulty '0')

def isLowerHexDigit (c : Char) : Bool :=
  c.isDigit || ('a' ≤ c && c ≤ 'f')

/-- CryptoUtils lines 311-315: the second declaration of isValidHash.  It
takes only the hash, so the difficulty argument passed by Block.isValid is
ignored, and it merely checks the 64-lower-hex-character format. -/
def isValidHashFormat (hash : String) : Bool :=
  hash.length = 64 && hash.toList.all isLowerHexDigit

/-- The isValidHash that call sites actually resolve to: in a JS class
body a later static method with the same name replaces the earlier one,
so CryptoUtils.isValidHash(hash, difficulty) runs the format check of
lines 311-315 and ignores difficulty. -/
def isValidHash (hash : String) (_difficulty : Nat) : Bool :=
  isValidHashFormat hash

def isOxBodyChar (c : Char) : Bool :=
  c.isDigit || ('a' ≤ c && c ≤ 'z')

/-- CryptoUtils.isValidAddress lines 280-287: the regex ox followed by 37
characters from 0-9a-z. -/
def isValidAddress (a : String) : Bool :=
  a.length = 39 && decide (a.take 2 = "ox") && (a.drop 2).toList.all isOxBodyChar

/-- CryptoUtils.generateAddress lines 137-174.  The compatibility path of
lines 140-143 (a caller-supplied address in valid format is returned
verbatim) is modelled exactly; the three hash-based branches that derive
an address from the public key alone (pub_-prefixed client algorithm,
CosmJS sha256/ripemd160 path and its fallback) are external hash
primitives abstracted as the parameter derive. -/
def generateAddress (derive : String → String) (publicKey : String)
    (fromAddress : Option String) : String :=
  match fromAddress with
  | some a => if isValidAddress a then a else derive publicKey
  | none => derive publicKey

/-- CryptoUtils.calculateMerkleRoot lines 45-68: odd levels duplicate the
last hash, adjacent pairs are concatenated and hashed.  One round of the
recursion. -/
def merkleCombine (H : String → String) : List String → List String
  | a :: b :: rest => H (a ++ b) :: merkleCombine H rest
  | [a] => [a]
  | [] => []

def merklePad (l : List String) : List String :=
  if l.length % 2 = 1 then l ++ [l.getLastD ""] else l

/-- Fuel-indexed recursion; each round at least halves a list of length
two or more, so fuel equal to the initial length suffices. -/
def calculateMerkleRootFuel (H : String → String) : Nat → List String → String
  | _, [] => H ""
  | _, [h] => h
  | 0, l => l.headD ""
  | fuel + 1, l => calculateMerkleRootFuel H fuel (merkleCombine H (merklePad l))

def calculateMerkleRoot (H : String → String) (hashes : List String) : String :=
  calculateMerkleRootFuel H hashes.length hashes

/-! ## Transaction data model (the Transaction module) -/

structure TransactionInput where
  transactionId : String
  outputIndex : Nat
  scriptSig : String
  publicKey : String
  sequence : Nat
  /-- UTXO amount carried for display only; not serialised. -/
  amount : Option ℚ
deriving DecidableEq

structure TransactionOutput where
  address : String
  amount : ℚ
  scriptPubKey : String
  spent : Bool
  spentTxId : Option String
  spentHeight : Option Nat
deriving DecidableEq

def TransactionOutput.mkFresh (address : String) (amount : ℚ)
    (scriptPubKey : String) : TransactionOutput :=
  ⟨address, amount, scriptPubKey, false, none, none⟩

structure Transaction where
  id : String
  version : Nat
  inputs : List TransactionInput
  outputs : List TransactionOutput
  lockTime : Nat
  fee : ℚ
  timestamp : Int
deriving DecidableEq

/-- TransactionInput.serialize: snake_case record without the
display-only amount field. -/
structure SerializedInput where
  transaction_id : String
  output_index : Nat
  script_sig : String
  public_key : String
  sequence : Nat
deriving DecidableEq

def TransactionInput.serialize (i : TransactionInput) : SerializedInput :=
  ⟨i.transactionId, i.outputIndex, i.scriptSig, i.publicKey, i.sequence⟩

/-- TransactionInput.deserialize: the amount is not serialised and comes
back as null; sequence falls back to 0xffffffff when falsy (zero). -/
def TransactionInput.deserialize (d : SerializedInput) : TransactionInput :=
  ⟨d.transaction_id, d.output_index, d.script_sig, d.public_key,
   if d.sequence = 0 then 4294967295 else d.sequence, none⟩

/-- The content hashed into a transaction id by updateTransactionId:
version, serialised inputs, serialised outputs and lockTime.  The output
serialisation round-trips every TransactionOutput field (the decimal
string encoding of the amount is exact), so the outputs appear
unchanged. -/
structure TxIdContent where
  version : Nat
  inputs : List SerializedInput
  outputs : List TransactionOutput
  lockTime : Nat
deriving DecidableEq

def Transaction.idContent (tx : Transaction) : TxIdContent :=
  ⟨tx.version, tx.inputs.map TransactionInput.serialize, tx.outputs, tx.lockTime⟩

/-- updateTransactionId, with the sha256 of the JSON encoding abstracted
as the parameter Htx. -/
def Transaction.updateId (Htx : TxIdContent → String) (tx : Transaction) : Transaction :=
  { tx with id := Htx tx.idContent }

/-- Transaction.isCoinbase: exactly one input carrying the all-zero
transaction id and the maximal output index. -/
def Transaction.isCoinbase (tx : Transaction) : Bool :=
  match tx.inputs with
  | [i] => i.transactionId = zeros64 && i.outputIndex = coinbaseOutputIndex
  | _ => false

/-- TransactionInput.createCoinbase: coinbase data string is
blockHeight ++ extraNonce ++ Date.now(). -/
def TransactionInput.createCoinbase (blockHeight : Nat) (extraNonce : String)
    (now : Int) : TransactionInput :=
  ⟨zeros64, coinbaseOutputIndex,
   toString blockHeight ++ extraNonce ++ toString now, "", 4294967295, none⟩

/-- Transaction.createCoinbase: one coinbase input, one output paying the
whole reward, id computed by the constructor. -/
def Transaction.createCoinbase (Htx : TxIdContent → String) (minerAddress : String)
    (blockHeight : Nat) (reward : ℚ) (extraData : String) (now : Int) : Transaction :=
  Transaction.updateId Htx
    { id := "", version := 1,
      inputs := [TransactionInput.createCoinbase blockHeight extraData now],
      outputs := [TransactionOutput.mkFresh minerAddress reward ""],
      lockTime := 0, fee := 0, timestamp := now }

/-! ## UTXO and UTXOSet (the UTXOSet module) -/

/-- An outpoint key: the JS string template txId:outputIndex modelled as
the pair. -/
abbrev Outpoint := String × Nat

structure UTXO where
  transactionId : String
  outputIndex : Nat
  address : String
  amount : ℚ
  blockHeight : Nat
  scriptPubKey : String
  spent : Bool
  spentTxId : Option String
  spentHeight : Option Nat
  confirmations : Nat
deriving DecidableEq

/-- UTXO.getKey. -/
def UTXO.getKey (u : UTXO) : Outpoint := (u.transactionId, u.outputIndex)

/-- A freshly created UTXO (the constructor). -/
def UTXO.mkFresh (transactionId : String) (outputIndex : Nat) (address : String)
    (amount : ℚ) (blockHeight : Nat) (scriptPubKey : String) : UTXO :=
  ⟨transactionId, outputIndex, address, amount, blockHeight, scriptPubKey,
   false, none, none, 0⟩

/-- UTXO.markAsSpent. -/
def UTXO.markAsSpent (u : UTXO) (spendingTxId : String) (spendingHeight : Nat) : UTXO :=
  { u with spent := true, spentTxId := some spendingTxId,
           spentHeight := some spendingHeight }

structure UTXOSet where
  utxos : List (Outpoint × UTXO)
  addressIndex : List (String × List Outpoint)
  spentUTXOs : List (Outpoint × UTXO)
  totalSupply : ℚ
  lastProcessedHeight : Nat
deriving DecidableEq

def UTXOSet.empty : UTXOSet := ⟨[], [], [], 0, 0⟩

/-- UTXOSet.addUTXO: insert into the main map, add the key to the address
index (creating the entry when absent) and grow totalSupply. -/
def UTXOSet.addUTXO (s : UTXOSet) (u : UTXO) : UTXOSet :=
  let k := u.getKey
  { s with
    utxos := mapSet k u s.utxos,
    addressIndex :=
      mapSet u.address (setAdd k ((mapGet u.address s.addressIndex).getD [])) s.addressIndex,
    totalSupply := s.totalSupply + u.amount }

/-- UTXOSet.removeUTXO: none models the false return (missing or already
spent — nothing mutated before those checks); otherwise the UTXO is
marked spent, moved to spentUTXOs, dropped from the map and the address
index (empty index entries are deleted), and totalSupply shrinks. -/
def UTXOSet.removeUTXO (s : UTXOSet) (transactionId : String) (outputIndex : Nat)
    (spendingTxId : String) (spendingHeight : Nat) : Option UTXOSet :=
  match mapGet (transactionId, outputIndex) s.utxos with
  | none => none
  | some u =>
    if u.spent then none
    else
      some { s with
        utxos := mapDel (transactionId, outputIndex) s.utxos,
        addressIndex :=
          if (setDel (transactionId, outputIndex)
              ((mapGet u.address s.addressIndex).getD [])).isEmpty
          then mapDel u.address s.addressIndex
          else mapSet u.address
            (setDel (transactionId, outputIndex)
              ((mapGet u.address s.addressIndex).getD []))
            s.addressIndex,
        spentUTXOs := mapSet (transactionId, outputIndex)
          (u.markAsSpent spendingTxId spendingHeight) s.spentUTXOs,
        totalSupply := s.totalSupply - u.amount }

/-- UTXOSet.getUTXO. -/
def UTXOSet.getUTXO (s : UTXOSet) (transactionId : String) (outputIndex : Nat) : Option UTXO :=
  mapGet (transactionId, outputIndex) s.utxos

/-- Stable ascending insertion by amount: a new element goes after every
element of smaller or equal amount, mirroring the stable
Array.prototype.sort with the comparator a.amount - b.amount. -/
def insertByAmount (x : UTXO) : List UTXO → List UTXO
  | [] => [x]
  | y :: ys => if y.amount ≤ x.amount then y :: insertByAmount x ys else x :: y :: ys

def sortByAmount (l : List UTXO) : List UTXO :=
  l.foldl (fun acc x => insertByAmount x acc) []

/-- UTXOSet.getUTXOsByAddress: resolve the keys of the address index,
keep present unspent UTXOs, sort ascending by amount. -/
def UTXOSet.getUTXOsByAddress (s : UTXOSet) (address : String) : List UTXO :=
  let keys := (mapGet address s.addressIndex).getD []
  let found := keys.filterMap (fun k =>
    match mapGet k s.utxos with
    | some u => if u.spent then none else some u
    | none => none)
  sortByAmount found

/-- UTXOSet.getBalance. -/
def UTXOSet.getBalance (s : UTXOSet) (address : String) : ℚ :=
  (s.getUTXOsByAddress address).foldl (fun acc u => acc + u.amount) 0

inductive SelectError
  /-- thrown when the address has no unspent UTXO at all -/
  | noAvailableUTXO
  /-- thrown when the candidates run out below the threshold -/
  | insufficientFunds
deriving DecidableEq

structure SelectResult where
  utxos : List UTXO
  totalAmount : ℚ
  fee : ℚ
  change : ℚ
deriving DecidableEq

/-- The greedy accumulation loop of selectUTXOsForPayment: push a UTXO,
add its amount, break as soon as the running total reaches the
threshold.  Returns the pushed list and the running total. -/
def greedySelect (threshold : ℚ) : List UTXO → ℚ → List UTXO × ℚ
  | [], total => ([], total)
  | u :: rest, total =>
    let total' := total + u.amount
    if threshold ≤ total' then ([u], total')
    else
      let r := greedySelect threshold rest total'
      (u :: r.1, r.2)

/-- UTXOSet.selectUTXOsForPayment lines 246-290: fee is
targetAmount * feePercentage / 100; candidates are the unspent UTXOs of
the address sorted ascending (the function sorts the already-sorted
candidate list again); greedy accumulation; distinct errors for the
no-candidate case and the exhausted case. -/
def UTXOSet.selectUTXOsForPayment (s : UTXOSet) (address : String)
    (targetAmount : ℚ) (feePercentage : ℚ) : Except SelectError SelectResult :=
  if (s.getUTXOsByAddress address).isEmpty then .error .noAvailableUTXO
  else if (greedySelect (targetAmount + targetAmount * feePercentage / 100)
      (sortByAmount (s.getUTXOsByAddress address)) 0).2
      < targetAmount + targetAmount * feePercentage / 100 then
    .error .insufficientFunds
  else
    .ok ⟨(greedySelect (targetAmount + targetAmount * feePercentage / 100)
            (sortByAmount (s.getUTXOsByAddress address)) 0).1,
         (greedySelect (targetAmount + targetAmount * feePercentage / 100)
            (sortByAmount (s.getUTXOsByAddress address)) 0).2,
         targetAmount * feePercentage / 100,
         (greedySelect (targetAmount + targetAmount * feePercentage / 100)
            (sortByAmount (s.getUTXOsByAddress address)) 0).2
           - targetAmount - targetAmount * feePercentage / 100⟩

/-- The input-consuming half of UTXOSet.processTransaction: coinbase
sentinel inputs are skipped, every other input must removeUTXO
successfully or the whole application throws (the failing outpoint is the
error value). -/
def processInputs (txId : String) (blockHeight : Nat) :
    UTXOSet → List TransactionInput → Except Outpoint UTXOSet
  | s, [] => .ok s
  | s, inp :: rest =>
    if inp.transactionId = zeros64 then processInputs txId blockHeight s rest
    else
      match s.removeUTXO inp.transactionId inp.outputIndex txId blockHeight with
      | none => .error (inp.transactionId, inp.outputIndex)
      | some s' => processInputs txId blockHeight s' rest

/-- The output-creating half of UTXOSet.processTransaction: a fresh UTXO
per output, keyed by (txId, index). -/
def addOutputs (txId : String) (blockHeight : Nat) :
    UTXOSet → Nat → List TransactionOutput → UTXOSet
  | s, _, [] => s
  | s, i, o :: rest =>
    addOutputs txId blockHeight
      (s.addUTXO (UTXO.mkFresh txId i o.address o.amount blockHeight o.scriptPubKey))
      (i + 1) rest

/-- UTXOSet.processTransaction lines 297-338. -/
def UTXOSet.processTransaction (s : UTXOSet) (tx : Transaction)
    (blockHeight : Nat) : Except Outpoint UTXOSet :=
  match processInputs tx.id blockHeight s tx.inputs with
  | .error k => .error k
  | .ok s1 =>
    let s2 := addOutputs tx.id blockHeight s1 0 tx.outputs
    .ok { s2 with lastProcessedHeight := max s2.lastProcessedHeight blockHeight }

/-- One output-deletion step of rollbackTransaction: if the key is
present, remove it from the map and the address index and shrink
totalSupply. -/
def rollbackDeleteOutput (txId : String) (i : Nat) (s : UTXOSet) : UTXOSet :=
  match mapGet (txId, i) s.utxos with
  | none => s
  | some u =>
    { s with
      utxos := mapDel (txId, i) s.utxos,
      addressIndex :=
        if (setDel (txId, i) ((mapGet u.address s.addressIndex).getD [])).isEmpty
        then mapDel u.address s.addressIndex
        else mapSet u.address
          (setDel (txId, i) ((mapGet u.address s.addressIndex).getD []))
          s.addressIndex,
      totalSupply := s.totalSupply - u.amount }

/-- One input-restoring step of rollbackTransaction: a spent record for
the outpoint whose spendingTxId matches the rolled-back transaction is
unmarked and moved back into the map and the address index. -/
def rollbackRestoreInput (txId : String) (inp : TransactionInput) (s : UTXOSet) : UTXOSet :=
  if inp.transactionId = zeros64 then s
  else
    match mapGet (inp.transactionId, inp.outputIndex) s.spentUTXOs with
    | none => s
    | some spentU =>
      if spentU.spentTxId = some txId then
        { s with
          utxos := mapSet (inp.transactionId, inp.outputIndex)
            { spentU with spent := false, spentTxId := none, spentHeight := none }
            s.utxos,
          spentUTXOs := mapDel (inp.transactionId, inp.outputIndex) s.spentUTXOs,
          addressIndex :=
            mapSet spentU.address
              (setAdd (inp.transactionId, inp.outputIndex)
                ((mapGet spentU.address s.addressIndex).getD []))
              s.addressIndex,
          totalSupply := s.totalSupply + spentU.amount }
      else s

/-- UTXOSet.rollbackTransaction lines 345-397: first delete the outputs
the transaction created (indices 0 .. outputs.length - 1), then restore
the inputs it spent. -/
def UTXOSet.rollbackTransaction (s : UTXOSet) (tx : Transaction)
    (_blockHeight : Nat) : UTXOSet :=
  let s1 := (List.range tx.outputs.length).foldl
    (fun acc i => rollbackDeleteOutput tx.id i acc) s
  tx.inputs.foldl (fun acc inp => rollbackRestoreInput tx.id inp acc) s1

/-- UTXOSet.updateConfirmations: confirmations become
max 0 (currentHeight - blockHeight + 1) on every UTXO of the map. -/
def UTXOSet.updateConfirmations (s : UTXOSet) (currentHeight : Nat) : UTXOSet :=
  { s with utxos := s.utxos.map (fun p =>
      (p.1, { p.2 with confirmations :=
        ((currentHeight : Int) - (p.2.blockHeight : Int) + 1).toNat })) }

/-- UTXOSet.serialize: the UTXO records round-trip field for field (the
decimal string encoding of amounts and of totalSupply is exact), so the
serialised form keeps the values; only the map keys are dropped. -/
structure SerializedUTXOSet where
  utxos : List UTXO
  spent_utxos : List UTXO
  total_supply : ℚ
  last_processed_height : Nat
deriving DecidableEq

def UTXOSet.serialize (s : UTXOSet) : SerializedUTXOSet :=
  ⟨s.utxos.map Prod.snd, s.spentUTXOs.map Prod.snd, s.totalSupply, s.lastProcessedHeight⟩

/-- UTXOSet.deserialize lines 562-588: a fresh set, addUTXO per stored
UTXO, spent records re-keyed by getKey, then totalSupply and
lastProcessedHeight overwritten from the stored values (the JS
parseFloat(x) or-zero and or-zero fallbacks are the identity on the
stored numbers). -/
def UTXOSet.deserialize (d : SerializedUTXOSet) : UTXOSet :=
  let s1 := d.utxos.foldl (fun s u => s.addUTXO u) UTXOSet.empty
  let s2 := { s1 with
    spentUTXOs := d.spent_utxos.foldl
      (fun m (u : UTXO) => mapSet u.getKey u m) s1.spentUTXOs }
  { s2 with totalSupply := d.total_supply, lastProcessedHeight := d.last_processed_height }

/-! ## Transaction validation (the Transaction module, lines 240-425) -/

/-- Transaction.getInputAmount: sum the amounts of the UTXOs the
non-sentinel inputs resolve to; unresolved inputs contribute nothing. -/
def Transaction.getInputAmount (tx : Transaction) (uset : UTXOSet) : ℚ :=
  tx.inputs.foldl (fun acc inp =>
    if inp.transactionId = zeros64 then acc
    else
      match uset.getUTXO inp.transactionId inp.outputIndex with
      | some u => acc + u.amount
      | none => acc) 0

/-- Transaction.getOutputAmount. -/
def Transaction.getOutputAmount (tx : Transaction) : ℚ :=
  tx.outputs.foldl (fun acc o => acc + o.amount) 0

/-- Transaction.calculateFee lines 271-281: zero for coinbase, input
total minus output total otherwise (the value assigned to this.fee and
returned). -/
def Transaction.calculateFee (tx : Transaction) (uset : UTXOSet) : ℚ :=
  if tx.isCoinbase then 0
  else tx.getInputAmount uset - tx.getOutputAmount

/-- The exact fields Transaction.validateScript serialises into the
signed message (JSON encoding abstracted): the referenced transaction id,
the input index, the owner address and the amount of the referenced
UTXO. -/
structure SignatureData where
  transactionId : String
  inputIndex : Nat
  outputAddress : String
  amount : ℚ
deriving DecidableEq

/-- A signature-verification oracle: message record, scriptSig,
publicKey. -/
abbrev VerifyFn := SignatureData → String → String → Bool

inductive ScriptFail
  | missingSigOrKey
  | missingScriptPubKey
  | addressMismatch
  | scriptPubKeyMismatch
  | badSignature
deriving DecidableEq

/-- Transaction.validateScript lines 366-425: the custom_exchange
sentinel bypasses every check; otherwise signature and key must be
nonempty, the UTXO must carry a scriptPubKey, the address generated from
the public key (with the UTXO address offered as the trusted
compatibility fromAddress) must equal the UTXO address, the scriptPubKey
must equal the UTXO address, and the signature must verify. -/
def Transaction.validateScript (derive : String → String) (V : VerifyFn)
    (input : TransactionInput) (utxo : UTXO) (inputIndex : Nat) :
    Except ScriptFail Unit :=
  if input.scriptSig = "custom_exchange" then .ok ()
  else if input.scriptSig = "" || input.publicKey = "" then .error .missingSigOrKey
  else if utxo.scriptPubKey = "" then .error .missingScriptPubKey
  else if generateAddress derive input.publicKey (some utxo.address) ≠ utxo.address then
    .error .addressMismatch
  else if utxo.scriptPubKey ≠ utxo.address then .error .scriptPubKeyMismatch
  else if V ⟨utxo.transactionId, inputIndex, utxo.address, utxo.amount⟩
            input.scriptSig input.publicKey then .ok ()
  else .error .badSignature

inductive TxInvalid
  | noInputs
  | noOutputs
  | unknownOutpoint (i : Nat)
  | alreadySpent (i : Nat)
  | scriptFailed (i : Nat) (r : ScriptFail)
  | insufficientInput
deriving DecidableEq

/-- The per-input loop of Transaction.isValid: resolve the referenced
UTXO, reject missing or spent ones, and unless signature verification is
skipped run validateScript. -/
def checkTxInputs (derive : String → String) (V : VerifyFn) (uset : UTXOSet)
    (skip : Bool) : Nat → List TransactionInput → Except TxInvalid Unit
  | _, [] => .ok ()
  | i, inp :: rest =>
    match uset.getUTXO inp.transactionId inp.outputIndex with
    | none => .error (.unknownOutpoint i)
    | some u =>
      if u.spent then .error (.alreadySpent i)
      else if skip then checkTxInputs derive V uset skip (i + 1) rest
      else
        match Transaction.validateScript derive V inp u i with
        | .error r => .error (.scriptFailed i r)
        | .ok () => checkTxInputs derive V uset skip (i + 1) rest

/-- Transaction.isValid lines 289-357: coinbase passes outright; inputs
and outputs must be nonempty; every input passes the per-input checks;
finally the input total must cover the output total. -/
def Transaction.isValid (derive : String → String) (V : VerifyFn)
    (uset : UTXOSet) (tx : Transaction)
    (skipSignatureVerification : Bool) : Except TxInvalid Unit :=
  if tx.isCoinbase then .ok ()
  else if tx.inputs.isEmpty then .error .noInputs
  else if tx.outputs.isEmpty then .error .noOutputs
  else
    match checkTxInputs derive V uset skipSignatureVerification 0 tx.inputs with
    | .error e => .error e
    | .ok () =>
      if tx.getInputAmount uset < tx.getOutputAmount then .error .insufficientInput
      else .ok ()

/-- Transaction.serialize keeps id, version, inputs, outputs, lock_time,
fee and timestamp (plus confirmation metadata the model does not
track). -/
structure SerializedTransaction where
  id : String
  version : Nat
  inputs : List SerializedInput
  outputs : List TransactionOutput
  lock_time : Nat
  fee : ℚ
  timestamp : Int
deriving DecidableEq

def Transaction.serialize (tx : Transaction) : SerializedTransaction :=
  ⟨tx.id, tx.version, tx.inputs.map TransactionInput.serialize, tx.outputs,
   tx.lockTime, tx.fee, tx.timestamp⟩

/-- Transaction.deserialize lines 633-653: the constructor recomputes an
id which is then overwritten by the stored one; falsy numeric fields fall
back to defaults, and a zero timestamp falls back to Date.now(). -/
def Transaction.deserialize (now : Int) (d : SerializedTransaction) : Transaction :=
  { id := d.id,
    version := if d.version = 0 then 1 else d.version,
    inputs := d.inputs.map TransactionInput.deserialize,
    outputs := d.outputs,
    lockTime := d.lock_time,
    fee := d.fee,
    timestamp := if d.timestamp = 0 then now else d.timestamp }

/-! ## Block and BlockHeader (src/server/src/modules/Block.js, part 1) -/

structure BlockHeader where
  version : Nat
  previousBlockHash : String
  merkleRoot : String
  timestamp : Int
  difficulty : Nat
  nonce : Nat
  height : Nat
  app_hash : String
  validators_hash : String
  consensus_hash : String
  next_validators_hash : String
  proposer_address : String
deriving DecidableEq

/-- The concatenation BlockHeader.calculateHash feeds to sha256: version,
previousBlockHash, merkleRoot, timestamp, difficulty, nonce, height,
app_hash, validators_hash, consensus_hash, joined with the empty
separator. -/
def BlockHeader.headerString (h : BlockHeader) : String :=
  toString h.version ++ h.previousBlockHash ++ h.merkleRoot ++
  toString h.timestamp ++ toString h.difficulty ++ toString h.nonce ++
  toString h.height ++ h.app_hash ++ h.validators_hash ++ h.consensus_hash

def BlockHeader.calculateHash (H : String → String) (h : BlockHeader) : String :=
  H h.headerString

inductive HeaderInvalid
  | incompleteFields
  | timestampTooFar
  | heightNotSequential
  | prevHashMismatch
  | timestampNotIncreasing
deriving DecidableEq

/-- BlockHeader.isValid lines 50-79, with Date.now() passed in as now.
The JS falsiness checks on merkleRoot and timestamp reject the empty
string and a zero timestamp; height below zero cannot occur for a
natural. -/
def BlockHeader.isValid (H : String → String) (now : Int) (h : BlockHeader)
    (previousHeader : Option BlockHeader) : Except HeaderInvalid Unit :=
  if h.merkleRoot = "" || h.timestamp = 0 then .error .incompleteFields
  else if h.timestamp > now + 7200000 then .error .timestampTooFar
  else
    match previousHeader with
    | none => .ok ()
    | some p =>
      if h.height ≠ p.height + 1 then .error .heightNotSequential
      else if h.previousBlockHash ≠ p.calculateHash H then .error .prevHashMismatch
      else if h.timestamp ≤ p.timestamp then .error .timestampNotIncreasing
      else .ok ()

structure Block where
  header : BlockHeader
  transactions : List Transaction
  hash : String
  /-- the JSON byte length computed by updateSize; abstracted as a plain
  field (the blocks of this development stay far below the 1 MiB cap). -/
  size : Nat
deriving DecidableEq

/-- Block.calculateMerkleRoot lines 155-162 over the transaction ids (the
fallback hash for an id-less transaction is never exercised: every
transaction of the model carries its id). -/
def Block.calcMerkleRoot (H : String → String) (b : Block) : String :=
  if b.transactions.isEmpty then H ""
  else calculateMerkleRoot H (b.transactions.map (·.id))

/-- Block.isCoinbaseTransaction lines 325-332. -/
def Block.isCoinbaseTransaction (tx : Transaction) : Bool :=
  match tx.inputs with
  | [i] => i.transactionId = zeros64 && i.outputIndex = coinbaseOutputIndex
  | _ => false

inductive BlockInvalid
  | badHeader (r : HeaderInvalid)
  | hashMismatch
  | invalidProofOfWork
  | merkleMismatch
  | tooLarge
  | tooManyTransactions
  | firstNotCoinbase
  | extraCoinbase (i : Nat)
  | invalidTransaction (i : Nat) (r : TxInvalid)
deriving DecidableEq

/-- The loop over the non-coinbase transactions in Block.isValid step 8
(indices start at 1). -/
def checkBlockTxs (derive : String → String) (V : VerifyFn) (uset : UTXOSet) :
    Nat → List Transaction → Except BlockInvalid Unit
  | _, [] => .ok ()
  | i, tx :: rest =>
    if Block.isCoinbaseTransaction tx then .error (.extraCoinbase i)
    else
      match Transaction.isValid derive V uset tx true with
      | .error r => .error (.invalidTransaction i r)
      | .ok () => checkBlockTxs derive V uset (i + 1) rest

/-- Block.isValid lines 253-318.  Step 4 calls the effective
CryptoUtils.isValidHash, which ignores the difficulty (see isValidHash
above).  Transactions are only checked when a UTXO set is supplied and
the list is nonempty; signature verification is skipped there. -/
def Block.isValid (H : String → String) (derive : String → String) (V : VerifyFn)
    (now : Int) (b : Block) (previousBlock : Option Block)
    (uset : Option UTXOSet) : Except BlockInvalid Unit :=
  match BlockHeader.isValid H now b.header (previousBlock.map (·.header)) with
  | .error r => .error (.badHeader r)
  | .ok () =>
    if b.hash ≠ b.header.calculateHash H then .error .hashMismatch
    else if ¬ isValidHash b.hash b.header.difficulty then .error .invalidProofOfWork
    else if b.header.merkleRoot ≠ b.calcMerkleRoot H then .error .merkleMismatch
    else if b.size > 1048576 then .error .tooLarge
    else if b.transactions.length > 2000 then .error .tooManyTransactions
    else
      match uset with
      | none => .ok ()
      | some us =>
        match b.transactions with
        | [] => .ok ()
        | first :: rest =>
          if ¬ Block.isCoinbaseTransaction first then .error .firstNotCoinbase
          else checkBlockTxs derive V us 1 rest

/-- Block.createGenesisBlock lines 451-466: previous hash of 64 zeros,
height 0, the fixed timestamp 1640995200000, difficulty 1, nonce 0, hash
computed once from the header (no mining loop touches the nonce). -/
def Block.createGenesisBlock (H : String → String)
    (initialTransactions : List Transaction) : Block :=
  let merkle :=
    if initialTransactions.isEmpty then H ""
    else calculateMerkleRoot H (initialTransactions.map (·.id))
  let header : BlockHeader :=
    { version := 1, previousBlockHash := zeros64, merkleRoot := merkle,
      timestamp := 1640995200000, difficulty := 1, nonce := 0, height := 0,
      app_hash := "", validators_hash := "", consensus_hash := "",
      next_validators_hash := "", proposer_address := "" }
  { header := header, transactions := initialTransactions,
    hash := header.calculateHash H, size := 0 }

/-- BlockHeader.serialize lines 85-98: the serialised header carries
version, previous hash, merkle root, time (ISO string, exact on the
millisecond timestamp), height and the cosmos-style fields — but neither
difficulty nor nonce. -/
structure SerializedHeader where
  version : Nat
  previous_block_hash : String
  merkle_root : String
  time : Int
  height : Nat
  app_hash : String
  validators_hash : String
  consensus_hash : String
  next_validators_hash : String
  proposer_address : String
deriving DecidableEq

def BlockHeader.serialize (h : BlockHeader) : SerializedHeader :=
  ⟨h.version, h.previousBlockHash, h.merkleRoot, h.timestamp, h.height,
   h.app_hash, h.validators_hash, h.consensus_hash, h.next_validators_hash,
   h.proposer_address⟩

/-- BlockHeader.deserialize lines 105-118: difficulty and nonce are not
in the serialised data, so they keep the constructor defaults 1 and 0. -/
def BlockHeader.deserialize (d : SerializedHeader) : BlockHeader :=
  { version := if d.version = 0 then 1 else d.version,
    previousBlockHash := d.previous_block_hash,
    merkleRoot := d.merkle_root,
    timestamp := d.time,
    difficulty := 1, nonce := 0,
    height := d.height,
    app_hash := d.app_hash, validators_hash := d.validators_hash,
    consensus_hash := d.consensus_hash,
    next_validators_hash := d.next_validators_hash,
    proposer_address := d.proposer_address }

structure SerializedBlock where
  header : SerializedHeader
  txs : List SerializedTransaction
deriving DecidableEq

/-- Block.serialize lines 398-409 (evidence and last_commit carry no
ledger state and are not modelled). -/
def Block.serialize (b : Block) : SerializedBlock :=
  ⟨b.header.serialize, b.transactions.map Transaction.serialize⟩

/-- Block.deserialize lines 417-444: restore the header and the
transactions, then recompute the merkle root and the hash from the
restored header — whose difficulty and nonce are the defaults. -/
def Block.deserialize (H : String → String) (now : Int) (d : SerializedBlock) : Block :=
  let header0 := BlockHeader.deserialize d.header
  let txs := d.txs.map (Transaction.deserialize now)
  let merkle :=
    if txs.isEmpty then H ""
    else calculateMerkleRoot H (txs.map (·.id))
  let header := { header0 with merkleRoot := merkle }
  { header := header, transactions := txs,
    hash := header.calculateHash H, size := 0 }

/-! ## Blockchain (src/server/src/modules/Block.js, part 2) -/

structure BlockchainConfig where
  chainId : Option String
  chainName : Option String
  initialMinerAddress : Option String
  minerPublicKey : Option String
deriving DecidableEq

structure Blockchain where
  chainId : String
  chainName : String
  chain : List Block
  utxoSet : UTXOSet
  mempool : List (String × Transaction)
  difficulty : Nat
  targetBlockTime : Nat
  baseBlockReward : ℚ
  halvingInterval : Nat
deriving DecidableEq

/-- this.difficultyAdjustmentInterval — fixed at 10 blocks. -/
def difficultyAdjustmentInterval : Nat := 10

/-- The literal 20 that clamps the difficulty in adjustDifficulty. -/
def maxDifficulty : Nat := 20

/-- Blockchain.getHeight: chain.length - 1. -/
def Blockchain.getHeight (bc : Blockchain) : Nat := bc.chain.length - 1

/-- Blockchain.getLatestBlock: the last chain element. -/
def Blockchain.getLatestBlock (bc : Blockchain) : Option Block := bc.chain.getLast?

/-- Blockchain.createGenesisTransactions lines 570-594: with a miner
address, one coinbase transaction funding it with 10 tokens whose first
output then has scriptPubKey set to the address — after the id was
computed, so the id is not refreshed. -/
def Blockchain.createGenesisTransactions (Htx : TxIdContent → String) (now : Int)
    (minerAddress : Option String) : List Transaction :=
  match minerAddress with
  | none => []
  | some addr =>
    let tx := Transaction.createCoinbase Htx addr 0 10
      "Miner wallet initial funding - 10 tokens" now
    let outputs' := match tx.outputs with
      | [] => []
      | o :: rest => { o with scriptPubKey := addr } :: rest
    [{ tx with outputs := outputs' }]

/-- The per-block transaction application loop shared by the constructor,
addBlock and validateChain. -/
def processBlockTxs (blockHeight : Nat) :
    UTXOSet → List Transaction → Except (String × Outpoint) UTXOSet
  | s, [] => .ok s
  | s, tx :: rest =>
    match s.processTransaction tx blockHeight with
    | .error k => .error (tx.id, k)
    | .ok s' => processBlockTxs blockHeight s' rest

/-- The Blockchain constructor lines 486-563: default configuration,
genesis block creation, and application of the genesis transactions to
the UTXO set.  The genesis transactions are coinbase-only, so their
application cannot throw; the fallback branch keeping the empty set is
unreachable. -/
def Blockchain.init (H : String → String) (Htx : TxIdContent → String)
    (now : Int) (cfg : BlockchainConfig) : Blockchain :=
  let genesisTxs := Blockchain.createGenesisTransactions Htx now cfg.initialMinerAddress
  let genesis := Block.createGenesisBlock H genesisTxs
  let uset :=
    match processBlockTxs 0 UTXOSet.empty genesisTxs with
    | .ok s => s
    | .error _ => UTXOSet.empty
  { chainId := cfg.chainId.getD "my-blockchain",
    chainName := cfg.chainName.getD "My Blockchain",
    chain := [genesis],
    utxoSet := uset,
    mempool := [],
    difficulty := 2,
    targetBlockTime := 10000,
    baseBlockReward := 50,
    halvingInterval := 210000 }

inductive MempoolError
  | validationFailed (r : TxInvalid)
  | alreadyInMempool
  | doubleSpendInTransaction (k : Outpoint)
  | doubleSpendInMempool (txId : String) (k : Outpoint)
deriving DecidableEq

/-- The first half of Blockchain.checkDoubleSpending lines 697-711:
collect the non-sentinel outpoints of the submitted transaction,
throwing on an internal duplicate. -/
def buildInputKeys : List Outpoint → List TransactionInput →
    Except Outpoint (List Outpoint)
  | acc, [] => .ok acc
  | acc, inp :: rest =>
    if inp.transactionId = zeros64 then buildInputKeys acc rest
    else if ((inp.transactionId, inp.outputIndex) : Outpoint) ∈ acc then
      .error (inp.transactionId, inp.outputIndex)
    else buildInputKeys (acc ++ [(inp.transactionId, inp.outputIndex)]) rest

/-- The second half of checkDoubleSpending lines 713-725: scan every
mempool transaction for a non-sentinel input whose outpoint the new
transaction also spends. -/
def checkMempoolConflicts (keys : List Outpoint) :
    List (String × Transaction) → Except MempoolError Unit
  | [] => .ok ()
  | (txId, mtx) :: rest =>
    match mtx.inputs.find? (fun inp =>
      inp.transactionId ≠ zeros64 &&
      ((inp.transactionId, inp.outputIndex) ∈ keys : Bool)) with
    | some inp => .error (.doubleSpendInMempool txId (inp.transactionId, inp.outputIndex))
    | none => checkMempoolConflicts keys rest

def Blockchain.checkDoubleSpending (bc : Blockchain) (tx : Transaction) :
    Except MempoolError Unit :=
  match buildInputKeys [] tx.inputs with
  | .error k => .error (.doubleSpendInTransaction k)
  | .ok keys => checkMempoolConflicts keys bc.mempool

/-- Blockchain.addTransactionToMempool lines 650-690: validate with full
signature checks, reject a duplicate id, reject double spends, then
insert keyed by id.  Every thrown error is caught and returned as a
failure with the blockchain unchanged (the insertion is the last step, so
nothing is mutated on the failing paths). -/
def Blockchain.addTransactionToMempool (derive : String → String) (V : VerifyFn)
    (bc : Blockchain) (tx : Transaction) : Except MempoolError Unit × Blockchain :=
  match Transaction.isValid derive V bc.utxoSet tx false with
  | .error r => (.error (.validationFailed r), bc)
  | .ok () =>
    if (mapGet tx.id bc.mempool).isSome then (.error .alreadyInMempool, bc)
    else
      match bc.checkDoubleSpending tx with
      | .error e => (.error e, bc)
      | .ok () => (.ok (), { bc with mempool := mapSet tx.id tx bc.mempool })

inductive AddBlockError
  | validationFailed (r : BlockInvalid)
  | utxoUpdateFailed (txId : String) (k : Outpoint)
deriving DecidableEq

/-- Blockchain.addBlock lines 956-1016: validate against the tip and the
UTXO set; back the UTXO set up via serialize; apply every transaction,
restoring the backup through deserialize on failure; on success append
the block and refresh confirmations. -/
def Blockchain.addBlock (H : String → String) (derive : String → String)
    (V : VerifyFn) (now : Int) (bc : Blockchain) (b : Block) :
    Except AddBlockError Unit × Blockchain :=
  match Block.isValid H derive V now b bc.getLatestBlock (some bc.utxoSet) with
  | .error r => (.error (.validationFailed r), bc)
  | .ok () =>
    -- utxoBackup := bc.utxoSet.serialize, restored via deserialize on failure
    match processBlockTxs b.header.height bc.utxoSet b.transactions with
    | .error e =>
      (.error (.utxoUpdateFailed e.1 e.2),
       { bc with utxoSet := UTXOSet.deserialize bc.utxoSet.serialize })
    | .ok s' =>
      (.ok (),
       { bc with
         chain := bc.chain ++ [b],
         utxoSet := s'.updateConfirmations b.header.height })

/-- The difficulty-update formula of Blockchain.adjustDifficulty lines
1045-1063, as a function of the old difficulty and the measured and
expected interval durations (ratio compared against the four band
boundaries, floor division for the decreases, and the final clamp at
20). -/
def adjustDifficultyCalc (oldDifficulty : Nat) (actualTime expectedTime : ℚ) : Nat :=
  min
    (if actualTime / expectedTime < 1/4 then min (oldDifficulty + 2) (oldDifficulty * 4)
     else if actualTime / expectedTime < 1/2 then min (oldDifficulty + 1) (oldDifficulty * 2)
     else if actualTime / expectedTime > 4 then max 1 (oldDifficulty / 4)
     else if actualTime / expectedTime > 2 then max 1 (oldDifficulty / 2)
     else oldDifficulty)
    maxDifficulty

/-- Blockchain.adjustDifficulty lines 1021-1078: a no-op unless the
height is a nonzero multiple of the 10-block interval; otherwise the
elapsed time of the last interval is compared against
targetBlockTime * interval. -/
def Blockchain.adjustDifficulty (bc : Blockchain) : Blockchain :=
  if bc.getHeight % difficultyAdjustmentInterval ≠ 0 then bc
  else if bc.getHeight < difficultyAdjustmentInterval then bc
  else
    match bc.chain.getLast?, bc.chain.get? (bc.getHeight - difficultyAdjustmentInterval) with
    | some latestBlock, some previousAdjustmentBlock =>
      { bc with difficulty := (adjustDifficultyCalc bc.difficulty
          ((latestBlock.header.timestamp - previousAdjustmentBlock.header.timestamp : Int) : ℚ)
          ((bc.targetBlockTime : ℚ) * (difficultyAdjustmentInterval : ℚ))) }
    | _, _ => bc

structure SerializedBlockchain where
  chain_id : String
  chain_name : String
  blocks : List SerializedBlock
  utxo_set : SerializedUTXOSet
  difficulty : Nat
  target_block_time : Nat
  base_block_reward : ℚ
  halving_interval : Nat
deriving DecidableEq

/-- Blockchain.serialize lines 1404-1415. -/
def Blockchain.serialize (bc : Blockchain) : SerializedBlockchain :=
  ⟨bc.chainId, bc.chainName, bc.chain.map Block.serialize, bc.utxoSet.serialize,
   bc.difficulty, bc.targetBlockTime, bc.baseBlockReward, bc.halvingInterval⟩

/-- Blockchain.deserialize lines 1422-1456: a fresh Blockchain (whose
constructor builds a genesis block) is cleared, then the stored blocks
are re-deserialised one by one, the UTXO set is restored, and the falsy
numeric fallbacks restore the configuration. -/
def Blockchain.deserialize (H : String → String) (Htx : TxIdContent → String)
    (now : Int) (d : SerializedBlockchain) : Blockchain :=
  let bc0 := Blockchain.init H Htx now ⟨some d.chain_id, some d.chain_name, none, none⟩
  { bc0 with
    chain := d.blocks.map (Block.deserialize H now),
    utxoSet := UTXOSet.deserialize d.utxo_set,
    difficulty := if d.difficulty = 0 then 2 else d.difficulty,
    targetBlockTime := if d.target_block_time = 0 then 10000 else d.target_block_time,
    baseBlockReward := if d.base_block_reward = 0 then 50 else d.base_block_reward,
    halvingInterval := if d.halving_interval = 0 then 210000 else d.halving_interval }

/-! ## Derived predicates used by the statements -/

/-- The success flag of a structured result (the JS objects carry
success or valid booleans; an Except models them). -/
def isOkB : Except ε α → Bool
  | .ok _ => true
  | .error _ => false

/-- Membership of an outpoint in the address index entry of an
address (an absent entry behaves as the empty set). -/
def indexHasKey (s : UTXOSet) (a : String) (k : Outpoint) : Bool :=
  decide (k ∈ (mapGet a s.addressIndex).getD [])

/-- The structural invariants the UTXOSet maintains (its own validate()
routine checks the coherence clauses): unique keys everywhere, keys
matching their UTXO, live UTXOs unmarked, and the address index in exact
correspondence with the map. -/
def UTXOSet.wf (s : UTXOSet) : Bool :=
  nodupB (s.utxos.map Prod.fst) &&
  s.utxos.all (fun p => decide (p.1 = p.2.getKey)) &&
  s.utxos.all (fun p =>
    !p.2.spent && decide (p.2.spentTxId = none) && decide (p.2.spentHeight = none)) &&
  nodupB (s.spentUTXOs.map Prod.fst) &&
  s.spentUTXOs.all (fun p => decide (p.1 = p.2.getKey)) &&
  nodupB (s.addressIndex.map Prod.fst) &&
  s.addressIndex.all (fun e =>
    nodupB e.2 && e.2.all (fun k =>
      match mapGet k s.utxos with
      | some u => decide (u.address = e.1)
      | none => false)) &&
  s.utxos.all (fun p => indexHasKey s p.2.address p.1)

/-- The weak invariant every operation preserves unconditionally: unique
map keys and duplicate-free address-index entries. -/
def UTXOSet.inv (s : UTXOSet) : Prop :=
  ((s.utxos.map Prod.fst).Nodup) ∧
  ((s.addressIndex.map Prod.fst).Nodup) ∧
  (∀ e ∈ s.addressIndex, e.2.Nodup)

/-- Observational equality of two UTXO sets: same lookups, same address
index membership, same supply, same height watermark. -/
def UTXOSet.ObsEq (s t : UTXOSet) : Prop :=
  (∀ k, mapGet k s.utxos = mapGet k t.utxos) ∧
  (∀ k, mapGet k s.spentUTXOs = mapGet k t.spentUTXOs) ∧
  (∀ a k, indexHasKey s a k = indexHasKey t a k) ∧
  s.totalSupply = t.totalSupply ∧
  s.lastProcessedHeight = t.lastProcessedHeight

/-- The non-sentinel outpoints referenced by a list of inputs, in
order, with multiplicity. -/
def nsKeys (l : List TransactionInput) : List Outpoint :=
  (l.filter (fun inp => decide (inp.transactionId ≠ zeros64))).map
    (fun inp => (inp.transactionId, inp.outputIndex))

/-- The total amount of the UTXOs a set resolves for the non-sentinel
inputs. -/
def nsAmount (s : UTXOSet) (l : List TransactionInput) : ℚ :=
  ((nsKeys l).map (fun k =>
    match mapGet k s.utxos with
    | some u => u.amount
    | none => 0)).sum

/-- Total amount the map resolves for a list of outpoints. -/
def utxosAmount (s : UTXOSet) (ks : List Outpoint) : ℚ :=
  (ks.map (fun k =>
    match mapGet k s.utxos with
    | some u => u.amount
    | none => 0)).sum

/-- Total amount the spent-record map resolves for a list of
outpoints. -/
def spentAmount (s : UTXOSet) (ks : List Outpoint) : ℚ :=
  (ks.map (fun k =>
    match mapGet k s.spentUTXOs with
    | some u => u.amount
    | none => 0)).sum

/-- Total amount of a list of outputs. -/
def outsAmount (l : List TransactionOutput) : ℚ :=
  (l.map (fun o => o.amount)).sum

/-- The double-spend situation of claim C1: the submitted transaction
references a non-sentinel outpoint twice among its own inputs, or shares
one with an input of a transaction already in the mempool. -/
def MempoolConflict (bc : Blockchain) (tx : Transaction) : Prop :=
  (¬ (nsKeys tx.inputs).Nodup) ∨
  (∃ k ∈ nsKeys tx.inputs, ∃ p ∈ bc.mempool, ∃ inp ∈ p.2.inputs,
    inp.transactionId ≠ zeros64 ∧ (inp.transactionId, inp.outputIndex) = k)

/-- Being one of the two double-spend rejection errors. -/
def MempoolError.isDoubleSpend : MempoolError → Bool
  | .doubleSpendInTransaction _ => true
  | .doubleSpendInMempool _ _ => true
  | _ => false

/-! ## Concrete instances used by witnesses and counterexamples -/

/-- A hash-function instance that derives nothing useful from a public
key. -/
def deriveNone : String → String := fun _ => ""

/-- A verification oracle under which no signature is ever valid. -/
def Vfalse : VerifyFn := fun _ _ _ => false

def hex64a : String := "aaaaaaaaaaaaaaaaaaaaaaaaaaaaaaaaaaaaaaaaaaaaaaaaaaaaaaaaaaaaaaaa"

def hex64f : String := "ffffffffffffffffffffffffffffffffffffffffffffffffffffffffffffffff"

/-- A constant hash function returning a 64-hex-digit string without a
leading zero. -/
def Hconst : String → String := fun _ => hex64a

/-- The identity as a (collision-free on our inputs) stand-in hash. -/
def Hid : String → String := fun s => s

def HtxConst : TxIdContent → String := fun _ => "tid"

def cbInput : TransactionInput :=
  ⟨zeros64, coinbaseOutputIndex, "d", "", 4294967295, none⟩

-- C1: a mempool holding a transaction that spends (t1, 0), and a second
-- valid transaction spending the same outpoint.
def usetC1 : UTXOSet := UTXOSet.empty.addUTXO (UTXO.mkFresh "t1" 0 "A" 5 0 "A")

def txC1a : Transaction :=
  ⟨"w1", 1, [⟨"t1", 0, "custom_exchange", "", 4294967295, none⟩],
   [TransactionOutput.mkFresh "B" 5 "B"], 0, 0, 0⟩

def txC1b : Transaction :=
  ⟨"w2", 1, [⟨"t1", 0, "custom_exchange", "", 4294967295, none⟩],
   [TransactionOutput.mkFresh "C" 4 "C"], 0, 0, 0⟩

def bcC1 : Blockchain :=
  ⟨"c", "n", [], usetC1, [("w1", txC1a)], 2, 10000, 50, 210000⟩

-- C2: a transaction using the custom_exchange bypass, under an oracle
-- with no valid signatures.
def usetC2 : UTXOSet := UTXOSet.empty.addUTXO (UTXO.mkFresh "t2" 0 "A" 5 0 "A")

def txC2 : Transaction :=
  ⟨"y1", 1, [⟨"t2", 0, "custom_exchange", "", 4294967295, none⟩],
   [TransactionOutput.mkFresh "B" 5 "B"], 0, 0, 0⟩

-- C3: a plain valid transfer with fee 2.
def usetC3 : UTXOSet := UTXOSet.empty.addUTXO (UTXO.mkFresh "t3" 0 "A" 5 0 "A")

def txC3 : Transaction :=
  ⟨"z1", 1, [⟨"t3", 0, "custom_exchange", "", 4294967295, none⟩],
   [TransactionOutput.mkFresh "B" 3 "B"], 0, 0, 0⟩

-- C4: a chain whose next block is structurally perfect but whose hash
-- has no leading zero, under the constant hash returning hex64a.
def headerC4g : BlockHeader := ⟨1, zeros64, hex64a, 1000, 1, 0, 0, "", "", "", "", ""⟩

def blockC4g : Block := ⟨headerC4g, [], hex64a, 0⟩

def bcC4 : Blockchain :=
  ⟨"c", "n", [blockC4g], UTXOSet.empty, [], 2, 10000, 50, 210000⟩

def headerC4b : BlockHeader := ⟨1, hex64a, hex64a, 2000, 2, 0, 1, "", "", "", "", ""⟩

def blockC4b : Block := ⟨headerC4b, [], hex64a, 0⟩

-- C5: a block that validates (each transaction is individually valid
-- against the snapshot) but whose application fails: two of its
-- transactions spend the same outpoint.
def usetC5 : UTXOSet := UTXOSet.empty.addUTXO (UTXO.mkFresh "t5" 0 "A" 5 0 "A")

def txC5cb : Transaction :=
  ⟨"cb5", 1, [cbInput], [TransactionOutput.mkFresh "M" 50 "M"], 0, 0, 0⟩

def txC5a : Transaction :=
  ⟨"x51", 1, [⟨"t5", 0, "custom_exchange", "", 4294967295, none⟩],
   [TransactionOutput.mkFresh "B" 5 "B"], 0, 0, 0⟩

def txC5b : Transaction :=
  ⟨"x52", 1, [⟨"t5", 0, "custom_exchange", "", 4294967295, none⟩],
   [TransactionOutput.mkFresh "C" 5 "C"], 0, 0, 0⟩

def headerC5g : BlockHeader := ⟨1, zeros64, hex64a, 1000, 1, 0, 0, "", "", "", "", ""⟩

def blockC5g : Block := ⟨headerC5g, [], hex64a, 0⟩

def bcC5 : Blockchain :=
  ⟨"c", "n", [blockC5g], usetC5, [], 2, 10000, 50, 210000⟩

def headerC5b : BlockHeader := ⟨1, hex64a, hex64a, 2000, 2, 0, 1, "", "", "", "", ""⟩

def blockC5b : Block := ⟨headerC5b, [txC5cb, txC5a, txC5b], hex64a, 0⟩

-- C6: a chain whose tip was mined at difficulty 2 with nonce 1.
def headerC6 : BlockHeader := ⟨1, "p", "", 5, 2, 1, 1, "", "", "", "", ""⟩

def blockC6 : Block := ⟨headerC6, [], headerC6.calculateHash Hid, 0⟩

def usetC6 : UTXOSet := UTXOSet.empty.addUTXO (UTXO.mkFresh "t6" 0 "A" 7 0 "A")

def bcC6 : Blockchain := ⟨"c6", "n6", [blockC6], usetC6, [], 2, 10000, 50, 210000⟩

def bcC6' : Blockchain := Blockchain.deserialize Hid HtxConst 99 bcC6.serialize

-- C7: an 11-block chain whose last 10-block interval took exactly one
-- fifth of the target time, at the difficulty cap.
def mkBlockTS (ts : Int) (h : Nat) : Block :=
  ⟨⟨1, "", "m", ts, 1, 0, h, "", "", "", "", ""⟩, [], "", 0⟩

def chainC7 : List Block :=
  [mkBlockTS 0 0, mkBlockTS 0 1, mkBlockTS 0 2, mkBlockTS 0 3, mkBlockTS 0 4,
   mkBlockTS 0 5, mkBlockTS 0 6, mkBlockTS 0 7, mkBlockTS 0 8, mkBlockTS 0 9,
   mkBlockTS 20000 10]

def bcC7 : Blockchain :=
  ⟨"c", "n", chainC7, UTXOSet.empty, [], 20, 10000, 50, 210000⟩

-- C7 witness state: same shape, difficulty 3 (below the cap).
def bcC7w : Blockchain :=
  ⟨"c", "n", chainC7, UTXOSet.empty, [], 3, 10000, 50, 210000⟩

-- C8: two candidate UTXOs of amounts 5 and 2 for address A.
def usetC8 : UTXOSet :=
  (UTXOSet.empty.addUTXO (UTXO.mkFresh "t8" 0 "A" 5 0 "A")).addUTXO
    (UTXO.mkFresh "t8" 1 "A" 2 0 "A")

-- C9 counterexample: the set already holds a UTXO at the outpoint
-- (T, 0) that the transaction T with id T will recreate.
def usetC9x : UTXOSet :=
  (UTXOSet.empty.addUTXO (UTXO.mkFresh "X" 0 "A" 5 0 "A")).addUTXO
    (UTXO.mkFresh "T" 0 "B" 7 0 "B")

def txC9x : Transaction :=
  ⟨"T", 1, [⟨"X", 0, "s", "p", 4294967295, none⟩],
   [TransactionOutput.mkFresh "C" 3 "C"], 0, 0, 0⟩

def finC9x : UTXOSet :=
  (((usetC9x.processTransaction txC9x 1).toOption).getD usetC9x).rollbackTransaction txC9x 1

-- C9 witness: fresh output key (W, 0).
def usetC9 : UTXOSet :=
  (UTXOSet.empty.addUTXO (UTXO.mkFresh "X" 0 "A" 5 0 "A")).addUTXO
    (UTXO.mkFresh "Y" 1 "B" 3 0 "B")

def txC9 : Transaction :=
  ⟨"W", 1, [⟨"X", 0, "s", "p", 4294967295, none⟩],
   [TransactionOutput.mkFresh "C" 4 "C"], 0, 0, 0⟩

-- C9 witness: the state after applying txC9 to usetC9.
def finC9ok : UTXOSet :=
  ((usetC9.processTransaction txC9 1).toOption).getD UTXOSet.empty

-- C8 witness: the selection returned for target 4 at fee rate 10 percent.
def rC8 : SelectResult :=
  ⟨[UTXO.mkFresh "t8" 1 "A" 2 0 "A", UTXO.mkFresh "t8" 0 "A" 5 0 "A"], 7, 2/5, 13/5⟩

-- C10: a constant hash without leading zeros and a miner-funding
-- configuration.
def Hf : String → String := fun _ => hex64f

def cfgC10 : BlockchainConfig := ⟨none, none, some "oxminer", none⟩

def cfgC10plain : BlockchainConfig := ⟨none, none, none, none⟩

/-! ## Basic association-list lemmas -/

theorem mapGet_nil [DecidableEq κ] (k : κ) : mapGet k ([] : List (κ × α)) = none := rfl

theorem mapGet_cons [DecidableEq κ] (k k' : κ) (v : α) (l : List (κ × α)) :
    mapGet k ((k', v) :: l) = if k' = k then some v else mapGet k l := rfl

theorem mapSet_cons [DecidableEq κ] (k k' : κ) (v v' : α) (l : List (κ × α)) :
    mapSet k v ((k', v') :: l) =
      if k' = k then (k, v) :: l else (k', v') :: mapSet k v l := rfl

theorem mapDel_cons [DecidableEq κ] (k k' : κ) (v' : α) (l : List (κ × α)) :
    mapDel k ((k', v') :: l) = if k' = k then l else (k', v') :: mapDel k l := rfl

theorem mapGet_mapSet_self [DecidableEq κ] (k : κ) (v : α) (l : List (κ × α)) :
    mapGet k (mapSet k v l) = some v := by
  induction l with
  | nil => simp [mapSet, mapGet]
  | cons p rest ih =>
    obtain ⟨k', v'⟩ := p
    by_cases h : k' = k
    · simp [mapSet_cons, mapGet_cons, h]
    · simp [mapSet_cons, mapGet_cons, h, ih]

theorem mapGet_mapSet_ne [DecidableEq κ] (k k' : κ) (v : α) (l : List (κ × α))
    (h : k' ≠ k) : mapGet k' (mapSet k v l) = mapGet k' l := by
  have h' : ¬ k = k' := fun hh => h hh.symm
  induction l with
  | nil => simp [mapSet, mapGet_cons, mapGet_nil, h']
  | cons p rest ih =>
    obtain ⟨k'', v''⟩ := p
    by_cases hk : k'' = k
    · subst hk
      simp [mapSet_cons, mapGet_cons, h']
    · simp only [mapSet_cons, if_neg hk, mapGet_cons, ih]

theorem mapGet_mapDel_ne [DecidableEq κ] (k k' : κ) (l : List (κ × α))
    (h : k' ≠ k) : mapGet k' (mapDel k l) = mapGet k' l := by
  have h' : ¬ k = k' := fun hh => h hh.symm
  induction l with
  | nil => simp [mapDel]
  | cons p rest ih =>
    obtain ⟨k'', v''⟩ := p
    by_cases hk : k'' = k
    · subst hk
      simp [mapDel_cons, mapGet_cons, h']
    · simp only [mapDel_cons, if_neg hk, mapGet_cons, ih]

theorem mapGet_eq_none_of_not_mem [DecidableEq κ] (k : κ) (l : List (κ × α))
    (h : k ∉ l.map Prod.fst) : mapGet k l = none := by
  induction l with
  | nil => rfl
  | cons p rest ih =>
    obtain ⟨k', v'⟩ := p
    simp only [List.map_cons, List.mem_cons] at h
    push_neg at h
    have h1 : ¬ k' = k := fun hh => h.1 hh.symm
    simp [mapGet_cons, h1, ih h.2]

theorem mem_of_mapGet_some [DecidableEq κ] (k : κ) (v : α) (l : List (κ × α))
    (h : mapGet k l = some v) : (k, v) ∈ l := by
  induction l with
  | nil => simp [mapGet] at h
  | cons p rest ih =>
    obtain ⟨k', v'⟩ := p
    by_cases hk : k' = k
    · subst hk
      rw [mapGet_cons, if_pos rfl] at h
      injection h with h
      subst h
      exact List.mem_cons_self _ _
    · simp only [mapGet_cons, if_neg hk] at h
      exact List.mem_cons_of_mem _ (ih h)

theorem mem_keys_of_mapGet_some [DecidableEq κ] (k : κ) (v : α) (l : List (κ × α))
    (h : mapGet k l = some v) : k ∈ l.map Prod.fst :=
  List.mem_map_of_mem Prod.fst (mem_of_mapGet_some k v l h)

theorem keys_mapDel [DecidableEq κ] (k : κ) (l : List (κ × α)) :
    (mapDel k l).map Prod.fst = (l.map Prod.fst).erase k := by
  induction l with
  | nil => rfl
  | cons p rest ih =>
    obtain ⟨k', v'⟩ := p
    by_cases hk : k' = k
    · subst hk
      simp [mapDel_cons, List.erase_cons]
    · simp [mapDel_cons, List.erase_cons, hk, ih]

theorem mapGet_mapDel_self [DecidableEq κ] (k : κ) (l : List (κ × α))
    (h : (l.map Prod.fst).Nodup) : mapGet k (mapDel k l) = none := by
  apply mapGet_eq_none_of_not_mem
  rw [keys_mapDel]
  exact h.not_mem_erase

theorem keys_mapSet_mem [DecidableEq κ] (k : κ) (v : α) (l : List (κ × α))
    (h : k ∈ l.map Prod.fst) : (mapSet k v l).map Prod.fst = l.map Prod.fst := by
  induction l with
  | nil => simp at h
  | cons p rest ih =>
    obtain ⟨k', v'⟩ := p
    by_cases hk : k' = k
    · subst hk; simp [mapSet_cons]
    · simp only [List.map_cons, List.mem_cons] at h
      rcases h with h | h
      · exact absurd h.symm hk
      · simp [mapSet_cons, hk, ih h]

theorem keys_mapSet_not_mem [DecidableEq κ] (k : κ) (v : α) (l : List (κ × α))
    (h : k ∉ l.map Prod.fst) : (mapSet k v l).map Prod.fst = l.map Prod.fst ++ [k] := by
  induction l with
  | nil => rfl
  | cons p rest ih =>
    obtain ⟨k', v'⟩ := p
    simp only [List.map_cons, List.mem_cons] at h
    push_neg at h
    have h1 : ¬ k' = k := fun hh => h.1 hh.symm
    simp [mapSet_cons, h1, ih h.2]

theorem nodup_keys_mapSet [DecidableEq κ] (k : κ) (v : α) (l : List (κ × α))
    (h : (l.map Prod.fst).Nodup) : ((mapSet k v l).map Prod.fst).Nodup := by
  by_cases hm : k ∈ l.map Prod.fst
  · rw [keys_mapSet_mem k v l hm]; exact h
  · rw [keys_mapSet_not_mem k v l hm]
    simp [List.nodup_append, h, hm]

theorem nodup_keys_mapDel [DecidableEq κ] (k : κ) (l : List (κ × α))
    (h : (l.map Prod.fst).Nodup) : ((mapDel k l).map Prod.fst).Nodup := by
  rw [keys_mapDel]; exact h.erase k

theorem mem_mapSet [DecidableEq κ] (k : κ) (v : α) (l : List (κ × α)) (e : κ × α)
    (h : e ∈ mapSet k v l) : e = (k, v) ∨ e ∈ l := by
  induction l with
  | nil => simp [mapSet] at h; simp [h]
  | cons p rest ih =>
    obtain ⟨k', v'⟩ := p
    by_cases hk : k' = k
    · simp only [mapSet_cons, if_pos hk, List.mem_cons] at h
      rcases h with h | h
      · exact Or.inl h
      · exact Or.inr (List.mem_cons_of_mem _ h)
    · simp only [mapSet_cons, if_neg hk, List.mem_cons] at h
      rcases h with h | h
      · exact Or.inr (by simp [h])
      · rcases ih h with h' | h'
        · exact Or.inl h'
        · exact Or.inr (List.mem_cons_of_mem _ h')

theorem mem_mapDel [DecidableEq κ] (k : κ) (l : List (κ × α)) (e : κ × α)
    (h : e ∈ mapDel k l) : e ∈ l := by
  induction l with
  | nil => simp [mapDel] at h
  | cons p rest ih =>
    obtain ⟨k', v'⟩ := p
    by_cases hk : k' = k
    · simp only [mapDel_cons, if_pos hk] at h
      exact List.mem_cons_of_mem _ h
    · simp only [mapDel_cons, if_neg hk, List.mem_cons] at h
      rcases h with h | h
      · simp [h]
      · exact List.mem_cons_of_mem _ (ih h)

theorem mem_setAdd [DecidableEq κ] (k k' : κ) (s : List κ) :
    k' ∈ setAdd k s ↔ k' ∈ s ∨ k' = k := by
  unfold setAdd
  by_cases h : k ∈ s
  · simp only [if_pos h]
    constructor
    · exact Or.inl
    · rintro (hh | rfl)
      · exact hh
      · exact h
  · simp [if_neg h]

theorem nodup_setAdd [DecidableEq κ] (k : κ) (s : List κ) (h : s.Nodup) :
    (setAdd k s).Nodup := by
  unfold setAdd
  by_cases hm : k ∈ s
  · simp only [if_pos hm]; exact h
  · simp only [if_neg hm]
    simp [List.nodup_append, h, hm]

theorem mem_setDel_of_ne [DecidableEq κ] (k k' : κ) (s : List κ) (h : k' ≠ k) :
    k' ∈ setDel k s ↔ k' ∈ s := by
  unfold setDel
  exact List.mem_erase_of_ne h

theorem not_mem_setDel_self [DecidableEq κ] (k : κ) (s : List κ) (h : s.Nodup) :
    k ∉ setDel k s := by
  unfold setDel
  exact h.not_mem_erase

theorem nodup_setDel [DecidableEq κ] (k : κ) (s : List κ) (h : s.Nodup) :
    (setDel k s).Nodup :=
  h.erase k

theorem setDel_eq_nil_forall [DecidableEq κ] (k : κ) (s : List κ)
    (h : setDel k s = []) : ∀ x ∈ s, x = k := by
  intro x hx
  by_contra hne
  have : x ∈ setDel k s := (mem_setDel_of_ne k x s hne).mpr hx
  rw [h] at this
  simp at this

theorem nodupB_iff [DecidableEq κ] (l : List κ) : nodupB l = true ↔ l.Nodup := by
  induction l with
  | nil => simp [nodupB]
  | cons k rest ih =>
    rw [List.nodup_cons, ← ih]
    simp [nodupB]

/-! ## Address-index update lemmas -/

theorem idxAdd_iff (idx : List (String × List Outpoint)) (addr : String)
    (key : Outpoint) (a : String) (k : Outpoint) :
    k ∈ (mapGet a (mapSet addr (setAdd key ((mapGet addr idx).getD [])) idx)).getD []
    ↔ (k ∈ (mapGet a idx).getD [] ∨ (a = addr ∧ k = key)) := by
  by_cases ha : a = addr
  · subst ha
    rw [mapGet_mapSet_self]
    simp [mem_setAdd]
  · rw [mapGet_mapSet_ne _ _ _ _ ha]
    simp [ha]

theorem idxDelete_iff (idx : List (String × List Outpoint)) (addr : String)
    (key : Outpoint)
    (hna : (idx.map Prod.fst).Nodup)
    (hold : ((mapGet addr idx).getD []).Nodup)
    (a : String) (k : Outpoint) :
    k ∈ (mapGet a
      (if (setDel key ((mapGet addr idx).getD [])).isEmpty
       then mapDel addr idx
       else mapSet addr (setDel key ((mapGet addr idx).getD [])) idx)).getD []
    ↔ (k ∈ (mapGet a idx).getD [] ∧ ¬(k = key ∧ a = addr)) := by
  by_cases ha : a = addr
  · subst ha
    by_cases he : (setDel key ((mapGet a idx).getD [])).isEmpty
    · rw [if_pos he, mapGet_mapDel_self _ _ hna]
      have hnil : setDel key ((mapGet a idx).getD []) = [] := by
        rwa [List.isEmpty_iff] at he
      simp only [Option.getD_none, List.not_mem_nil, false_iff]
      rintro ⟨hmem, hne⟩
      exact hne ⟨setDel_eq_nil_forall _ _ hnil k hmem, by trivial⟩
    · rw [if_neg he, mapGet_mapSet_self]
      simp only [Option.getD_some]
      by_cases hk : k = key
      · subst hk
        constructor
        · intro hmem
          exact absurd hmem (not_mem_setDel_self _ _ hold)
        · rintro ⟨_, hne⟩
          exact absurd ⟨rfl, by trivial⟩ hne
      · rw [mem_setDel_of_ne _ _ _ hk]
        constructor
        · intro hmem
          exact ⟨hmem, fun hh => hk hh.1⟩
        · rintro ⟨hmem, _⟩
          exact hmem
  · have hbranch : ∀ l : List (String × List Outpoint),
        (mapGet a (mapDel addr l)).getD [] = (mapGet a l).getD [] := by
      intro l; rw [mapGet_mapDel_ne _ _ _ ha]
    by_cases he : (setDel key ((mapGet addr idx).getD [])).isEmpty
    · rw [if_pos he, hbranch]
      simp [ha]
    · rw [if_neg he, mapGet_mapSet_ne _ _ _ _ ha]
      simp [ha]

/-! ## UTXOSet operation lemmas -/

theorem boolExt {a b : Bool} (h : a = true ↔ b = true) : a = b := by
  cases a <;> cases b <;> simp_all

theorem getUTXO_eq (s : UTXOSet) (tid : String) (idx : Nat) :
    s.getUTXO tid idx = mapGet (tid, idx) s.utxos := rfl

theorem addUTXO_utxos_get (s : UTXOSet) (u : UTXO) (k : Outpoint) :
    mapGet k (s.addUTXO u).utxos =
      if k = u.getKey then some u else mapGet k s.utxos := by
  unfold UTXOSet.addUTXO
  by_cases h : k = u.getKey
  · subst h; simp [mapGet_mapSet_self]
  · simp only [if_neg h, mapGet_mapSet_ne _ _ _ _ h]

theorem addUTXO_spent (s : UTXOSet) (u : UTXO) :
    (s.addUTXO u).spentUTXOs = s.spentUTXOs := rfl

theorem addUTXO_supply (s : UTXOSet) (u : UTXO) :
    (s.addUTXO u).totalSupply = s.totalSupply + u.amount := rfl

theorem addUTXO_lph (s : UTXOSet) (u : UTXO) :
    (s.addUTXO u).lastProcessedHeight = s.lastProcessedHeight := rfl

theorem addUTXO_index (s : UTXOSet) (u : UTXO) (a : String) (k : Outpoint) :
    (indexHasKey (s.addUTXO u) a k = true ↔
      (indexHasKey s a k = true ∨ (a = u.address ∧ k = u.getKey))) := by
  unfold indexHasKey UTXOSet.addUTXO
  simp only [decide_eq_true_eq]
  exact idxAdd_iff s.addressIndex u.address u.getKey a k

theorem addUTXO_inv (s : UTXOSet) (u : UTXO) (h : s.inv) : (s.addUTXO u).inv := by
  obtain ⟨h1, h2, h3⟩ := h
  refine ⟨nodup_keys_mapSet _ _ _ h1, nodup_keys_mapSet _ _ _ h2, ?_⟩
  intro e he
  rcases mem_mapSet _ _ _ _ he with he | he
  · subst he
    apply nodup_setAdd
    cases hg : mapGet u.address s.addressIndex with
    | none => simp
    | some ks =>
      simpa using h3 _ (mem_of_mapGet_some _ _ _ hg)
  · exact h3 _ he

theorem old_set_nodup (s : UTXOSet) (addr : String) (h : ∀ e ∈ s.addressIndex, e.2.Nodup) :
    ((mapGet addr s.addressIndex).getD []).Nodup := by
  cases hg : mapGet addr s.addressIndex with
  | none => simp
  | some ks => simpa using h _ (mem_of_mapGet_some _ _ _ hg)

theorem deleteShape_inv (s : UTXOSet) (addr : String) (key : Outpoint)
    (hna : (s.addressIndex.map Prod.fst).Nodup)
    (hns : ∀ e ∈ s.addressIndex, e.2.Nodup) :
    ((if (setDel key ((mapGet addr s.addressIndex).getD [])).isEmpty
      then mapDel addr s.addressIndex
      else mapSet addr (setDel key ((mapGet addr s.addressIndex).getD []))
        s.addressIndex).map Prod.fst).Nodup ∧
    (∀ e ∈ (if (setDel key ((mapGet addr s.addressIndex).getD [])).isEmpty
      then mapDel addr s.addressIndex
      else mapSet addr (setDel key ((mapGet addr s.addressIndex).getD []))
        s.addressIndex), e.2.Nodup) := by
  by_cases he : (setDel key ((mapGet addr s.addressIndex).getD [])).isEmpty
  · rw [if_pos he]
    exact ⟨nodup_keys_mapDel _ _ hna, fun e he' => hns _ (mem_mapDel _ _ _ he')⟩
  · rw [if_neg he]
    refine ⟨nodup_keys_mapSet _ _ _ hna, ?_⟩
    intro e he'
    rcases mem_mapSet _ _ _ _ he' with h' | h'
    · subst h'
      exact nodup_setDel _ _ (old_set_nodup s addr hns)
    · exact hns _ h'

theorem removeUTXO_spec (s : UTXOSet) (tid : String) (idx : Nat) (stx : String)
    (sh : Nat) (s' : UTXOSet) (hinv : s.inv)
    (hrm : s.removeUTXO tid idx stx sh = some s') :
    ∃ u, mapGet (tid, idx) s.utxos = some u ∧ u.spent = false ∧
      (∀ k, mapGet k s'.utxos =
        if k = (tid, idx) then none else mapGet k s.utxos) ∧
      (∀ k, mapGet k s'.spentUTXOs =
        if k = (tid, idx) then some (u.markAsSpent stx sh) else mapGet k s.spentUTXOs) ∧
      (∀ a k, (indexHasKey s' a k = true ↔
        (indexHasKey s a k = true ∧ ¬(k = (tid, idx) ∧ a = u.address)))) ∧
      s'.totalSupply = s.totalSupply - u.amount ∧
      s'.lastProcessedHeight = s.lastProcessedHeight ∧
      s'.inv := by
  obtain ⟨hnu, hna, hns⟩ := hinv
  unfold UTXOSet.removeUTXO at hrm
  cases hget : mapGet (tid, idx) s.utxos with
  | none =>
    simp only [hget] at hrm
    exact Option.noConfusion hrm
  | some u =>
    simp only [hget] at hrm
    cases hs : u.spent with
    | true => simp [hs] at hrm
    | false =>
      simp only [hs, Bool.false_eq_true, if_false] at hrm
      injection hrm with hrm
      subst hrm
      refine ⟨u, rfl, hs, ?_, ?_, ?_, rfl, rfl, ?_⟩
      · intro k
        by_cases hk : k = (tid, idx)
        · subst hk; simp [mapGet_mapDel_self _ _ hnu]
        · simp [hk, mapGet_mapDel_ne _ _ _ hk]
      · intro k
        by_cases hk : k = (tid, idx)
        · subst hk; simp [mapGet_mapSet_self]
        · simp [hk, mapGet_mapSet_ne _ _ _ _ hk]
      · intro a k
        unfold indexHasKey
        simp only [decide_eq_true_eq]
        exact idxDelete_iff s.addressIndex u.address (tid, idx) hna
          (old_set_nodup s u.address hns) a k
      · refine ⟨nodup_keys_mapDel _ _ hnu, ?_⟩
        exact deleteShape_inv s u.address (tid, idx) hna hns

theorem rollbackDeleteOutput_spec (txId : String) (i : Nat) (s : UTXOSet) (u : UTXO)
    (hinv : s.inv) (hget : mapGet (txId, i) s.utxos = some u) :
    (∀ k, mapGet k (rollbackDeleteOutput txId i s).utxos =
      if k = (txId, i) then none else mapGet k s.utxos) ∧
    (rollbackDeleteOutput txId i s).spentUTXOs = s.spentUTXOs ∧
    (∀ a k, (indexHasKey (rollbackDeleteOutput txId i s) a k = true ↔
      (indexHasKey s a k = true ∧ ¬(k = (txId, i) ∧ a = u.address)))) ∧
    (rollbackDeleteOutput txId i s).totalSupply = s.totalSupply - u.amount ∧
    (rollbackDeleteOutput txId i s).lastProcessedHeight = s.lastProcessedHeight ∧
    (rollbackDeleteOutput txId i s).inv := by
  obtain ⟨hnu, hna, hns⟩ := hinv
  simp only [rollbackDeleteOutput, hget]
  refine ⟨?_, by trivial, ?_, by trivial, by trivial, ?_⟩
  · intro k
    by_cases hk : k = (txId, i)
    · subst hk; simp [mapGet_mapDel_self _ _ hnu]
    · simp [hk, mapGet_mapDel_ne _ _ _ hk]
  · intro a k
    unfold indexHasKey
    simp only [decide_eq_true_eq]
    exact idxDelete_iff s.addressIndex u.address (txId, i) hna
      (old_set_nodup s u.address hns) a k
  · refine ⟨nodup_keys_mapDel _ _ hnu, ?_⟩
    exact deleteShape_inv s u.address (txId, i) hna hns

theorem rollbackDeleteOutput_miss (txId : String) (i : Nat) (s : UTXOSet)
    (hget : mapGet (txId, i) s.utxos = none) :
    rollbackDeleteOutput txId i s = s := by
  simp only [rollbackDeleteOutput, hget]

theorem rollbackRestoreInput_spec (txId : String) (inp : TransactionInput)
    (s : UTXOSet) (m : UTXO)
    (hsen : inp.transactionId ≠ zeros64)
    (hget : mapGet (inp.transactionId, inp.outputIndex) s.spentUTXOs = some m)
    (htx : m.spentTxId = some txId) :
    (∀ k, mapGet k (rollbackRestoreInput txId inp s).utxos =
      if k = (inp.transactionId, inp.outputIndex)
      then some { m with spent := false, spentTxId := none, spentHeight := none }
      else mapGet k s.utxos) ∧
    (∀ a k, (indexHasKey (rollbackRestoreInput txId inp s) a k = true ↔
      (indexHasKey s a k = true ∨
        (a = m.address ∧ k = (inp.transactionId, inp.outputIndex))))) ∧
    (∀ k, k ≠ (inp.transactionId, inp.outputIndex) →
      mapGet k (rollbackRestoreInput txId inp s).spentUTXOs = mapGet k s.spentUTXOs) ∧
    (rollbackRestoreInput txId inp s).totalSupply = s.totalSupply + m.amount ∧
    (rollbackRestoreInput txId inp s).lastProcessedHeight = s.lastProcessedHeight ∧
    (s.inv → (rollbackRestoreInput txId inp s).inv) := by
  have h1 : ¬ inp.transactionId = zeros64 := hsen
  simp only [rollbackRestoreInput, if_neg h1, hget, htx, if_pos rfl]
  refine ⟨?_, ?_, ?_, rfl, rfl, ?_⟩
  · intro k
    by_cases hk : k = (inp.transactionId, inp.outputIndex)
    · subst hk; simp [mapGet_mapSet_self]
    · simp [hk, mapGet_mapSet_ne _ _ _ _ hk]
  · intro a k
    unfold indexHasKey
    simp only [decide_eq_true_eq]
    exact idxAdd_iff s.addressIndex m.address (inp.transactionId, inp.outputIndex) a k
  · intro k hk
    exact mapGet_mapDel_ne _ _ _ hk
  · rintro ⟨hnu, hna, hns⟩
    refine ⟨nodup_keys_mapSet _ _ _ hnu, nodup_keys_mapSet _ _ _ hna, ?_⟩
    intro e he
    rcases mem_mapSet _ _ _ _ he with he | he
    · subst he
      exact nodup_setAdd _ _ (old_set_nodup s m.address hns)
    · exact hns _ he

theorem rollbackRestoreInput_skip (txId : String) (inp : TransactionInput)
    (s : UTXOSet) (hsen : inp.transactionId = zeros64) :
    rollbackRestoreInput txId inp s = s := by
  simp only [rollbackRestoreInput, if_pos hsen]

theorem rollbackRestoreInput_miss (txId : String) (inp : TransactionInput)
    (s : UTXOSet) (hsen : inp.transactionId ≠ zeros64)
    (hget : mapGet (inp.transactionId, inp.outputIndex) s.spentUTXOs = none) :
    rollbackRestoreInput txId inp s = s := by
  have h1 : ¬ inp.transactionId = zeros64 := hsen
  simp only [rollbackRestoreInput, if_neg h1, hget]

/-! ## Well-formedness extraction -/

theorem wf_parts (s : UTXOSet) (h : s.wf = true) :
    (s.utxos.map Prod.fst).Nodup ∧
    (∀ p ∈ s.utxos, p.1 = p.2.getKey) ∧
    (∀ p ∈ s.utxos, p.2.spent = false ∧ p.2.spentTxId = none ∧ p.2.spentHeight = none) ∧
    (s.spentUTXOs.map Prod.fst).Nodup ∧
    (∀ p ∈ s.spentUTXOs, p.1 = p.2.getKey) ∧
    (s.addressIndex.map Prod.fst).Nodup ∧
    (∀ e ∈ s.addressIndex, e.2.Nodup ∧ ∀ k ∈ e.2,
      ∃ u, mapGet k s.utxos = some u ∧ u.address = e.1) ∧
    (∀ p ∈ s.utxos, indexHasKey s p.2.address p.1 = true) := by
  unfold UTXOSet.wf at h
  simp only [Bool.and_eq_true, List.all_eq_true, decide_eq_true_eq, nodupB_iff,
    Bool.not_eq_true'] at h
  obtain ⟨⟨⟨⟨⟨⟨⟨h1, h2⟩, h3⟩, h4⟩, h5⟩, h6⟩, h7⟩, h8⟩ := h
  refine ⟨h1, h2, ?_, h4, h5, h6, ?_, h8⟩
  · intro p hp
    obtain ⟨⟨a, b⟩, c⟩ := h3 p hp
    exact ⟨a, b, c⟩
  · intro e he
    obtain ⟨hn, hcoh⟩ := h7 e he
    refine ⟨hn, ?_⟩
    intro k hk
    have hmatch := hcoh k hk
    cases hg : mapGet k s.utxos with
    | none =>
      simp only [hg] at hmatch
      exact Bool.noConfusion hmatch
    | some u =>
      simp only [hg, decide_eq_true_eq] at hmatch
      exact ⟨u, rfl, hmatch⟩

theorem wf_inv (s : UTXOSet) (h : s.wf = true) : s.inv := by
  obtain ⟨h1, _, _, _, _, h6, h7, _⟩ := wf_parts s h
  exact ⟨h1, h6, fun e he => (h7 e he).1⟩

theorem wf_index_sound (s : UTXOSet) (h : s.wf = true) (a : String) (k : Outpoint)
    (hidx : indexHasKey s a k = true) :
    ∃ u, mapGet k s.utxos = some u ∧ u.address = a := by
  obtain ⟨_, _, _, _, _, _, h7, _⟩ := wf_parts s h
  unfold indexHasKey at hidx
  simp only [decide_eq_true_eq] at hidx
  cases hg : mapGet a s.addressIndex with
  | none => rw [hg] at hidx; exact absurd hidx (by simp)
  | some ks =>
    rw [hg] at hidx
    simp only [Option.getD_some] at hidx
    exact (h7 _ (mem_of_mapGet_some _ _ _ hg)).2 k hidx

theorem wf_index_complete (s : UTXOSet) (h : s.wf = true) (k : Outpoint) (u : UTXO)
    (hget : mapGet k s.utxos = some u) : indexHasKey s u.address k = true := by
  obtain ⟨_, _, _, _, _, _, _, h8⟩ := wf_parts s h
  exact h8 _ (mem_of_mapGet_some _ _ _ hget)

theorem wf_get_pristine (s : UTXOSet) (h : s.wf = true) (k : Outpoint) (u : UTXO)
    (hget : mapGet k s.utxos = some u) :
    u.spent = false ∧ u.spentTxId = none ∧ u.spentHeight = none := by
  obtain ⟨_, _, h3, _⟩ := wf_parts s h
  exact h3 _ (mem_of_mapGet_some _ _ _ hget)

/-! ## nsKeys and nsAmount lemmas -/

theorem nsKeys_nil : nsKeys [] = [] := rfl

theorem nsKeys_cons_sen (inp : TransactionInput) (rest : List TransactionInput)
    (hsen : inp.transactionId = zeros64) : nsKeys (inp :: rest) = nsKeys rest := by
  simp [nsKeys, hsen]

theorem nsKeys_cons_ns (inp : TransactionInput) (rest : List TransactionInput)
    (hsen : inp.transactionId ≠ zeros64) :
    nsKeys (inp :: rest) = (inp.transactionId, inp.outputIndex) :: nsKeys rest := by
  simp [nsKeys, hsen]

theorem nsAmount_congr (s1 s2 : UTXOSet) (l : List TransactionInput)
    (h : ∀ k ∈ nsKeys l, mapGet k s1.utxos = mapGet k s2.utxos) :
    nsAmount s1 l = nsAmount s2 l := by
  unfold nsAmount
  congr 1
  apply List.map_congr_left
  intro k hk
  rw [h k hk]

theorem nsAmount_cons_sen (s : UTXOSet) (inp : TransactionInput)
    (rest : List TransactionInput) (hsen : inp.transactionId = zeros64) :
    nsAmount s (inp :: rest) = nsAmount s rest := by
  unfold nsAmount
  rw [nsKeys_cons_sen _ _ hsen]

theorem nsAmount_cons_ns (s : UTXOSet) (inp : TransactionInput)
    (rest : List TransactionInput) (u : UTXO) (hsen : inp.transactionId ≠ zeros64)
    (hget : mapGet (inp.transactionId, inp.outputIndex) s.utxos = some u) :
    nsAmount s (inp :: rest) = u.amount + nsAmount s rest := by
  unfold nsAmount
  rw [nsKeys_cons_ns _ _ hsen]
  simp [hget]

/-! ## processInputs fold specification -/

theorem processInputs_spec (txId : String) (bh : Nat) :
    ∀ (inputs : List TransactionInput) (s s' : UTXOSet),
    s.inv → processInputs txId bh s inputs = .ok s' →
    s'.inv ∧
    (nsKeys inputs).Nodup ∧
    (∀ k, k ∉ nsKeys inputs →
      mapGet k s'.utxos = mapGet k s.utxos ∧
      mapGet k s'.spentUTXOs = mapGet k s.spentUTXOs ∧
      (∀ a, (indexHasKey s' a k = true ↔ indexHasKey s a k = true))) ∧
    (∀ k, k ∈ nsKeys inputs →
      ∃ u, mapGet k s.utxos = some u ∧ u.spent = false ∧
        mapGet k s'.utxos = none ∧
        mapGet k s'.spentUTXOs = some (u.markAsSpent txId bh) ∧
        (∀ a, (indexHasKey s' a k = true ↔
          (indexHasKey s a k = true ∧ ¬ a = u.address)))) ∧
    s'.totalSupply = s.totalSupply - nsAmount s inputs ∧
    s'.lastProcessedHeight = s.lastProcessedHeight := by
  intro inputs
  induction inputs with
  | nil =>
    intro s s' hinv hok
    simp only [processInputs] at hok
    injection hok with hok
    subst hok
    refine ⟨hinv, by simp [nsKeys], ?_, ?_, ?_, rfl⟩
    · intro k _
      exact ⟨rfl, rfl, fun a => Iff.rfl⟩
    · intro k hk
      simp [nsKeys] at hk
    · simp [nsAmount, nsKeys]
  | cons inp rest ih =>
    intro s s' hinv hok
    by_cases hsen : inp.transactionId = zeros64
    · simp only [processInputs, if_pos hsen] at hok
      obtain ⟨hinv', hnd', hunt', hcons', hsup', hlph'⟩ := ih s s' hinv hok
      rw [nsKeys_cons_sen _ _ hsen, nsAmount_cons_sen _ _ _ hsen]
      exact ⟨hinv', hnd', hunt', hcons', hsup', hlph'⟩
    · simp only [processInputs, if_neg hsen] at hok
      cases hrm : s.removeUTXO inp.transactionId inp.outputIndex txId bh with
      | none =>
        rw [hrm] at hok
        exact Except.noConfusion hok
      | some s1 =>
        rw [hrm] at hok
        obtain ⟨u, hget, hspent, hgu, hgs, hgi, hsup1, hlph1, hinv1⟩ :=
          removeUTXO_spec s _ _ _ _ s1 hinv hrm
        obtain ⟨hinv', hnd', hunt', hcons', hsup', hlph'⟩ := ih s1 s' hinv1 hok
        have hk0gone : mapGet (inp.transactionId, inp.outputIndex) s1.utxos = none := by
          rw [hgu]; simp
        have hk0notin : (inp.transactionId, inp.outputIndex) ∉ nsKeys rest := by
          intro hmem
          obtain ⟨u', hu', _⟩ := hcons' _ hmem
          rw [hk0gone] at hu'
          exact Option.noConfusion hu'
        rw [nsKeys_cons_ns _ _ hsen, nsAmount_cons_ns s _ _ u hsen hget]
        have hamt : nsAmount s1 rest = nsAmount s rest := by
          apply nsAmount_congr
          intro k hk
          have hkne : k ≠ (inp.transactionId, inp.outputIndex) := by
            intro hh; exact hk0notin (hh ▸ hk)
          rw [hgu]
          simp [hkne]
        refine ⟨hinv', ?_, ?_, ?_, ?_, ?_⟩
        · exact List.nodup_cons.mpr ⟨hk0notin, hnd'⟩
        · intro k hk
          simp only [List.mem_cons] at hk
          push_neg at hk
          obtain ⟨hk1, hk2⟩ := hk
          obtain ⟨e1, e2, e3⟩ := hunt' k hk2
          refine ⟨?_, ?_, ?_⟩
          · rw [e1, hgu]; simp [hk1]
          · rw [e2, hgs]; simp [hk1]
          · intro a
            rw [e3 a, hgi a k]
            constructor
            · exact fun hh => hh.1
            · intro hh
              exact ⟨hh, fun hc => hk1 hc.1⟩
        · intro k hk
          simp only [List.mem_cons] at hk
          rcases hk with hk | hk
          · subst hk
            refine ⟨u, hget, hspent, ?_, ?_, ?_⟩
            · obtain ⟨e1, _, _⟩ := hunt' _ hk0notin
              rw [e1, hgu]; simp
            · obtain ⟨_, e2, _⟩ := hunt' _ hk0notin
              rw [e2, hgs]; simp
            · intro a
              obtain ⟨_, _, e3⟩ := hunt' _ hk0notin
              rw [e3 a, hgi a _]
              constructor
              · rintro ⟨hh, hne⟩
                exact ⟨hh, fun hc => hne ⟨rfl, hc⟩⟩
              · rintro ⟨hh, hne⟩
                exact ⟨hh, fun hc => hne hc.2⟩
          · obtain ⟨u', hu', hsp', hgone', hmark', hidx'⟩ := hcons' _ hk
            have hkne : k ≠ (inp.transactionId, inp.outputIndex) := by
              intro hh; exact hk0notin (hh ▸ hk)
            have hu'' : mapGet k s.utxos = some u' := by
              rw [hgu] at hu'
              simpa [hkne] using hu'
            refine ⟨u', hu'', hsp', hgone', ?_, ?_⟩
            · rw [hmark']
            · intro a
              rw [hidx' a, hgi a k]
              constructor
              · rintro ⟨⟨hh, _⟩, hne⟩
                exact ⟨hh, hne⟩
              · rintro ⟨hh, hne⟩
                exact ⟨⟨hh, fun hc => hkne hc.1⟩, hne⟩
        · rw [hsup', hamt, hsup1]
          ring
        · rw [hlph', hlph1]

/-! ## addOutputs fold specification -/

theorem addOutputs_spec (txId : String) (bh : Nat) :
    ∀ (outs : List TransactionOutput) (i : Nat) (s : UTXOSet), s.inv →
    (addOutputs txId bh s i outs).inv ∧
    (addOutputs txId bh s i outs).spentUTXOs = s.spentUTXOs ∧
    (addOutputs txId bh s i outs).lastProcessedHeight = s.lastProcessedHeight ∧
    (addOutputs txId bh s i outs).totalSupply = s.totalSupply + outsAmount outs ∧
    (∀ k, (∀ j, j < outs.length → k ≠ (txId, i + j)) →
      mapGet k (addOutputs txId bh s i outs).utxos = mapGet k s.utxos ∧
      (∀ a, (indexHasKey (addOutputs txId bh s i outs) a k = true ↔
        indexHasKey s a k = true))) ∧
    (∀ j (hj : j < outs.length),
      mapGet (txId, i + j) (addOutputs txId bh s i outs).utxos =
        some (UTXO.mkFresh txId (i + j) (outs.get ⟨j, hj⟩).address
          (outs.get ⟨j, hj⟩).amount bh (outs.get ⟨j, hj⟩).scriptPubKey) ∧
      (∀ a, (indexHasKey (addOutputs txId bh s i outs) a (txId, i + j) = true ↔
        (indexHasKey s a (txId, i + j) = true ∨ a = (outs.get ⟨j, hj⟩).address)))) := by
  intro outs
  induction outs with
  | nil =>
    intro i s hinv
    refine ⟨hinv, rfl, rfl, by simp [addOutputs, outsAmount], ?_, ?_⟩
    · intro k _
      exact ⟨rfl, fun a => Iff.rfl⟩
    · intro j hj
      exact absurd hj (by simp)
  | cons o rest ih =>
    intro i s hinv
    have hkey : (UTXO.mkFresh txId i o.address o.amount bh o.scriptPubKey).getKey
        = (txId, i) := rfl
    have haddr : (UTXO.mkFresh txId i o.address o.amount bh o.scriptPubKey).address
        = o.address := rfl
    obtain ⟨ih1, ih2, ih3, ih4, ihunt, ihadd⟩ :=
      ih (i + 1) (s.addUTXO (UTXO.mkFresh txId i o.address o.amount bh o.scriptPubKey))
        (addUTXO_inv _ _ hinv)
    have hstep : addOutputs txId bh s i (o :: rest) =
        addOutputs txId bh
          (s.addUTXO (UTXO.mkFresh txId i o.address o.amount bh o.scriptPubKey))
          (i + 1) rest := rfl
    rw [hstep]
    refine ⟨ih1, by rw [ih2, addUTXO_spent], by rw [ih3, addUTXO_lph], ?_, ?_, ?_⟩
    · rw [ih4, addUTXO_supply]
      have hamt : (UTXO.mkFresh txId i o.address o.amount bh o.scriptPubKey).amount
          = o.amount := rfl
      rw [hamt]
      simp only [outsAmount, List.map_cons, List.sum_cons]
      ring
    · intro k hk
      have hk0 : k ≠ (txId, i) := by
        have := hk 0 (by simp)
        simpa using this
      have hkrest : ∀ j, j < rest.length → k ≠ (txId, i + 1 + j) := by
        intro j hj
        have := hk (j + 1) (by simpa using Nat.succ_lt_succ hj)
        intro hh
        apply this
        rw [hh]
        congr 1
        omega
      obtain ⟨e1, e2⟩ := ihunt k hkrest
      constructor
      · rw [e1, addUTXO_utxos_get]
        simp [hkey, hk0]
      · intro a
        rw [e2 a, addUTXO_index]
        constructor
        · rintro (hh | ⟨_, hh⟩)
          · exact hh
          · rw [hkey] at hh; exact absurd hh hk0
        · exact Or.inl
    · intro j hj
      cases j with
      | zero =>
        have h0 : (txId, i + 0) = (txId, i) := by simp
        have hrest : ∀ j', j' < rest.length → (txId, i) ≠ (txId, i + 1 + j') := by
          intro j' _ hh
          have : i = i + 1 + j' := (Prod.mk.injEq _ _ _ _).mp hh |>.2
          omega
        obtain ⟨e1, e2⟩ := ihunt (txId, i) hrest
        constructor
        · rw [h0, e1, addUTXO_utxos_get]
          simp [hkey]
        · intro a
          rw [h0, e2 a, addUTXO_index, hkey, haddr]
          simp
      | succ j' =>
        have hj' : j' < rest.length := by simpa using Nat.lt_of_succ_lt_succ hj
        have harith : i + (j' + 1) = i + 1 + j' := by omega
        obtain ⟨e1, e2⟩ := ihadd j' hj'
        constructor
        · rw [show (txId, i + (j' + 1)) = (txId, i + 1 + j') by rw [harith], e1]
          simp [harith]
        · intro a
          rw [show (txId, i + (j' + 1)) = (txId, i + 1 + j') by rw [harith], e2 a,
            addUTXO_index, hkey]
          constructor
          · rintro (hh | hh)
            · rcases hh with hh | ⟨_, hh⟩
              · exact Or.inl hh
              · exfalso
                have : i + 1 + j' = i := (Prod.mk.injEq _ _ _ _).mp hh |>.2
                omega
            · exact Or.inr hh
          · rintro (hh | hh)
            · exact Or.inl (Or.inl hh)
            · exact Or.inr hh

/-! ## Rollback fold specifications -/

theorem deleteFold_spec (txId : String) :
    ∀ (is : List Nat) (s : UTXOSet), s.inv → is.Nodup →
    (∀ i ∈ is, ∃ u, mapGet (txId, i) s.utxos = some u) →
    (is.foldl (fun acc i => rollbackDeleteOutput txId i acc) s).inv ∧
    (is.foldl (fun acc i => rollbackDeleteOutput txId i acc) s).spentUTXOs = s.spentUTXOs ∧
    (is.foldl (fun acc i => rollbackDeleteOutput txId i acc) s).lastProcessedHeight
      = s.lastProcessedHeight ∧
    (is.foldl (fun acc i => rollbackDeleteOutput txId i acc) s).totalSupply
      = s.totalSupply - utxosAmount s (is.map (fun i => (txId, i))) ∧
    (∀ k, (∀ i ∈ is, k ≠ (txId, i)) →
      mapGet k (is.foldl (fun acc i => rollbackDeleteOutput txId i acc) s).utxos
        = mapGet k s.utxos ∧
      (∀ a, (indexHasKey (is.foldl (fun acc i => rollbackDeleteOutput txId i acc) s) a k = true
        ↔ indexHasKey s a k = true))) ∧
    (∀ i ∈ is,
      mapGet (txId, i) (is.foldl (fun acc i => rollbackDeleteOutput txId i acc) s).utxos
        = none ∧
      (∀ u, mapGet (txId, i) s.utxos = some u →
        ∀ a, (indexHasKey (is.foldl (fun acc i => rollbackDeleteOutput txId i acc) s) a (txId, i)
          = true ↔ (indexHasKey s a (txId, i) = true ∧ ¬ a = u.address)))) := by
  intro is
  induction is with
  | nil =>
    intro s hinv _ _
    refine ⟨hinv, rfl, rfl, by simp [utxosAmount], ?_, ?_⟩
    · intro k _; exact ⟨rfl, fun a => Iff.rfl⟩
    · intro i hi; simp at hi
  | cons i0 rest ih =>
    intro s hinv hnd hpres
    obtain ⟨u0, hu0⟩ := hpres i0 (by simp)
    obtain ⟨d1, d2, d3, d4, d5, d6⟩ := rollbackDeleteOutput_spec txId i0 s u0 hinv hu0
    have hnd0 : i0 ∉ rest := (List.nodup_cons.mp hnd).1
    have hndr : rest.Nodup := (List.nodup_cons.mp hnd).2
    have hneq : ∀ i ∈ rest, ((txId, i) : Outpoint) ≠ (txId, i0) := by
      intro i hi hh
      have hieq : i = i0 := (Prod.ext_iff.mp hh).2
      exact hnd0 (hieq ▸ hi)
    have hneq' : ∀ i ∈ rest, ((txId, i0) : Outpoint) ≠ (txId, i) := by
      intro i hi hh
      exact (hneq i hi) hh.symm
    have hpres' : ∀ i ∈ rest, ∃ u, mapGet (txId, i) (rollbackDeleteOutput txId i0 s).utxos
        = some u := by
      intro i hi
      obtain ⟨u, hu⟩ := hpres i (by simp [hi])
      refine ⟨u, ?_⟩
      rw [d1]
      simp [hneq i hi, hu]
    obtain ⟨ih1, ih2, ih3, ih4, ihunt, ihdel⟩ :=
      ih (rollbackDeleteOutput txId i0 s) d6 hndr hpres'
    have hstep : (i0 :: rest).foldl (fun acc i => rollbackDeleteOutput txId i acc) s
        = rest.foldl (fun acc i => rollbackDeleteOutput txId i acc)
            (rollbackDeleteOutput txId i0 s) := rfl
    rw [hstep]
    have hamt : utxosAmount (rollbackDeleteOutput txId i0 s) (rest.map (fun i => (txId, i)))
        = utxosAmount s (rest.map (fun i => (txId, i))) := by
      unfold utxosAmount
      congr 1
      apply List.map_congr_left
      intro k hk
      simp only [List.mem_map] at hk
      obtain ⟨i, hi, rfl⟩ := hk
      rw [d1]
      simp [hneq i hi]
    refine ⟨ih1, by rw [ih2, d2], by rw [ih3, d5], ?_, ?_, ?_⟩
    · rw [ih4, hamt, d4]
      simp only [utxosAmount, List.map_cons, List.sum_cons, hu0]
      ring
    · intro k hk
      have hk0 : k ≠ (txId, i0) := hk i0 (by simp)
      have hkr : ∀ i ∈ rest, k ≠ (txId, i) := fun i hi => hk i (by simp [hi])
      obtain ⟨e1, e2⟩ := ihunt k hkr
      constructor
      · rw [e1, d1]; simp [hk0]
      · intro a
        rw [e2 a, d3 a k]
        constructor
        · exact fun hh => hh.1
        · intro hh
          exact ⟨hh, fun hc => hk0 hc.1⟩
    · intro i hi
      simp only [List.mem_cons] at hi
      rcases hi with hi | hi
      · subst hi
        obtain ⟨e1, e2⟩ := ihunt (txId, i) (hneq' · ·)
        constructor
        · rw [e1, d1]; simp
        · intro u hu a
          rw [hu0] at hu
          injection hu with hu
          subst hu
          rw [e2 a, d3 a _]
          simp
      · obtain ⟨e1, e2pair⟩ := ihdel i hi
        refine ⟨e1, ?_⟩
        intro u hu a
        have hu' : mapGet (txId, i) (rollbackDeleteOutput txId i0 s).utxos = some u := by
          rw [d1]
          simp [hneq i hi, hu]
        rw [e2pair u hu' a, d3 a _]
        constructor
        · rintro ⟨⟨hh, _⟩, hz⟩
          exact ⟨hh, hz⟩
        · rintro ⟨hh, hz⟩
          exact ⟨⟨hh, fun hc => (hneq i hi) hc.1⟩, hz⟩

theorem restoreFold_spec (txId : String) :
    ∀ (inputs : List TransactionInput) (s : UTXOSet), s.inv →
    (nsKeys inputs).Nodup →
    (∀ k ∈ nsKeys inputs, ∃ mk, mapGet k s.spentUTXOs = some mk ∧
      mk.spentTxId = some txId) →
    (inputs.foldl (fun acc inp => rollbackRestoreInput txId inp acc) s).inv ∧
    (inputs.foldl (fun acc inp => rollbackRestoreInput txId inp acc) s).lastProcessedHeight
      = s.lastProcessedHeight ∧
    (inputs.foldl (fun acc inp => rollbackRestoreInput txId inp acc) s).totalSupply
      = s.totalSupply + spentAmount s (nsKeys inputs) ∧
    (∀ k, k ∉ nsKeys inputs →
      mapGet k (inputs.foldl (fun acc inp => rollbackRestoreInput txId inp acc) s).utxos
        = mapGet k s.utxos ∧
      (∀ a, (indexHasKey (inputs.foldl (fun acc inp => rollbackRestoreInput txId inp acc) s) a k
        = true ↔ indexHasKey s a k = true))) ∧
    (∀ k ∈ nsKeys inputs, ∀ mk, mapGet k s.spentUTXOs = some mk →
      mapGet k (inputs.foldl (fun acc inp => rollbackRestoreInput txId inp acc) s).utxos
        = some { mk with spent := false, spentTxId := none, spentHeight := none } ∧
      (∀ a, (indexHasKey (inputs.foldl (fun acc inp => rollbackRestoreInput txId inp acc) s) a k
        = true ↔ (indexHasKey s a k = true ∨ a = mk.address)))) := by
  intro inputs
  induction inputs with
  | nil =>
    intro s hinv _ _
    refine ⟨hinv, rfl, by simp [spentAmount, nsKeys], ?_, ?_⟩
    · intro k _; exact ⟨rfl, fun a => Iff.rfl⟩
    · intro k hk; simp [nsKeys] at hk
  | cons inp rest ih =>
    intro s hinv hnd hpres
    by_cases hsen : inp.transactionId = zeros64
    · have hskip : rollbackRestoreInput txId inp s = s := rollbackRestoreInput_skip _ _ _ hsen
      have hstep : (inp :: rest).foldl (fun acc i => rollbackRestoreInput txId i acc) s
          = rest.foldl (fun acc i => rollbackRestoreInput txId i acc) s := by
        simp only [List.foldl_cons, hskip]
      rw [hstep, nsKeys_cons_sen _ _ hsen]
      rw [nsKeys_cons_sen _ _ hsen] at hnd hpres
      exact ih s hinv hnd hpres
    · have hk0mem : ((inp.transactionId, inp.outputIndex) : Outpoint)
          ∈ nsKeys (inp :: rest) := by
        rw [nsKeys_cons_ns _ _ hsen]; simp
      obtain ⟨m0, hm0, hm0tx⟩ := hpres _ hk0mem
      obtain ⟨r1, r2, r3, r4, r5, r6⟩ :=
        rollbackRestoreInput_spec txId inp s m0 hsen hm0 hm0tx
      rw [nsKeys_cons_ns _ _ hsen] at hnd hpres ⊢
      have hnd0 : ((inp.transactionId, inp.outputIndex) : Outpoint) ∉ nsKeys rest :=
        (List.nodup_cons.mp hnd).1
      have hndr : (nsKeys rest).Nodup := (List.nodup_cons.mp hnd).2
      have hpres' : ∀ k ∈ nsKeys rest, ∃ mk,
          mapGet k (rollbackRestoreInput txId inp s).spentUTXOs = some mk ∧
          mk.spentTxId = some txId := by
        intro k hk
        obtain ⟨mk, hmk, hmtx⟩ := hpres k (by simp [hk])
        have hne : k ≠ (inp.transactionId, inp.outputIndex) := by
          intro hh; exact hnd0 (hh ▸ hk)
        exact ⟨mk, by rw [r3 k hne]; exact hmk, hmtx⟩
      obtain ⟨ih1, ih2, ih3, ihunt, ihres⟩ :=
        ih (rollbackRestoreInput txId inp s) (r6 hinv) hndr hpres'
      have hstep : (inp :: rest).foldl (fun acc i => rollbackRestoreInput txId i acc) s
          = rest.foldl (fun acc i => rollbackRestoreInput txId i acc)
              (rollbackRestoreInput txId inp s) := rfl
      rw [hstep]
      have hamt : spentAmount (rollbackRestoreInput txId inp s) (nsKeys rest)
          = spentAmount s (nsKeys rest) := by
        unfold spentAmount
        congr 1
        apply List.map_congr_left
        intro k hk
        have hne : k ≠ (inp.transactionId, inp.outputIndex) := by
          intro hh; exact hnd0 (hh ▸ hk)
        rw [r3 k hne]
      refine ⟨ih1, by rw [ih2, r5], ?_, ?_, ?_⟩
      · rw [ih3, hamt, r4]
        simp only [spentAmount, List.map_cons, List.sum_cons, hm0]
        ring
      · intro k hk
        simp only [List.mem_cons] at hk
        push_neg at hk
        obtain ⟨hk1, hk2⟩ := hk
        obtain ⟨e1, e2⟩ := ihunt k hk2
        constructor
        · rw [e1, r1]; simp [hk1]
        · intro a
          rw [e2 a, r2 a k]
          constructor
          · rintro (hh | ⟨_, hh⟩)
            · exact hh
            · exact absurd hh hk1
          · exact Or.inl
      · intro k hk
        simp only [List.mem_cons] at hk
        rcases hk with hk | hk
        · subst hk
          intro mk hmk
          rw [hm0] at hmk
          injection hmk with hmk
          subst hmk
          obtain ⟨e1, e2⟩ := ihunt _ hnd0
          constructor
          · rw [e1, r1]; simp
          · intro a
            rw [e2 a, r2 a _]
            constructor
            · rintro (hh | ⟨hh, _⟩)
              · exact Or.inl hh
              · exact Or.inr hh
            · rintro (hh | hh)
              · exact Or.inl hh
              · exact Or.inr ⟨hh, rfl⟩
        · intro mk hmk
          have hne : k ≠ (inp.transactionId, inp.outputIndex) := by
            intro hh; exact hnd0 (hh ▸ hk)
          have hmk' : mapGet k (rollbackRestoreInput txId inp s).spentUTXOs = some mk := by
            rw [r3 k hne]; exact hmk
          obtain ⟨e1, e2⟩ := ihres k hk mk hmk'
          refine ⟨e1, ?_⟩
          intro a
          rw [e2 a, r2 a k]
          constructor
          · rintro ((hh | ⟨_, hh⟩) | hh)
            · exact Or.inl hh
            · exact absurd hh hne
            · exact Or.inr hh
          · rintro (hh | hh)
            · exact Or.inl (Or.inl hh)
            · exact Or.inr hh

/-! ## processTransaction and rollbackTransaction glue -/

theorem unmark_mark (u : UTXO) (a : String) (b : Nat) (h1 : u.spent = false)
    (h2 : u.spentTxId = none) (h3 : u.spentHeight = none) :
    { u.markAsSpent a b with spent := false, spentTxId := none, spentHeight := none } = u := by
  cases u
  simp only [UTXO.markAsSpent] at h1 h2 h3 ⊢
  rw [h1, h2, h3]

theorem mem_nsKeys_of (inp : TransactionInput) (l : List TransactionInput)
    (h1 : inp ∈ l) (h2 : inp.transactionId ≠ zeros64) :
    ((inp.transactionId, inp.outputIndex) : Outpoint) ∈ nsKeys l := by
  unfold nsKeys
  simp only [List.mem_map, List.mem_filter, decide_eq_true_eq]
  exact ⟨inp, ⟨h1, h2⟩, rfl⟩

theorem nsKeys_mem_inv (k : Outpoint) (l : List TransactionInput) (h : k ∈ nsKeys l) :
    ∃ inp ∈ l, inp.transactionId ≠ zeros64 ∧
      k = (inp.transactionId, inp.outputIndex) := by
  unfold nsKeys at h
  simp only [List.mem_map, List.mem_filter, decide_eq_true_eq] at h
  obtain ⟨inp, ⟨hm, hns⟩, hk⟩ := h
  exact ⟨inp, hm, hns, hk.symm⟩

theorem processTransaction_ok (s s' : UTXOSet) (tx : Transaction) (bh : Nat)
    (hok : s.processTransaction tx bh = .ok s') :
    ∃ sA, processInputs tx.id bh s tx.inputs = .ok sA ∧
      s' = { addOutputs tx.id bh sA 0 tx.outputs with
             lastProcessedHeight :=
               max (addOutputs tx.id bh sA 0 tx.outputs).lastProcessedHeight bh } := by
  unfold UTXOSet.processTransaction at hok
  cases hpi : processInputs tx.id bh s tx.inputs with
  | error k =>
    simp only [hpi] at hok
    exact Except.noConfusion hok
  | ok sA =>
    simp only [hpi] at hok
    injection hok with hok
    exact ⟨sA, rfl, hok.symm⟩

theorem rollbackTransaction_eq (s : UTXOSet) (tx : Transaction) (bh : Nat) :
    s.rollbackTransaction tx bh =
      tx.inputs.foldl (fun acc inp => rollbackRestoreInput tx.id inp acc)
        ((List.range tx.outputs.length).foldl
          (fun acc i => rollbackDeleteOutput tx.id i acc) s) := rfl

/-! ## Claim C9 -/

/-- C9 (amended): for a transaction whose application to a well-formed
UTXO set succeeds and whose output outpoints are not already present in
the set, rollbackTransaction after processTransaction restores every
lookup of the UTXO map, the address index and the total supply to their
pre-apply values; in particular every output UTXO the transaction created
is deleted and every UTXO it spent is present again and unspent.  (The
claim as frozen omits the freshness requirement on the output outpoints;
the counterexample shows it is needed.) -/
theorem C9_apply_rollback_roundtrip (s s' : UTXOSet) (tx : Transaction) (bh : Nat)
    (hwf : s.wf = true)
    (hfresh : ∀ i, i < tx.outputs.length → mapGet (tx.id, i) s.utxos = none)
    (hok : s.processTransaction tx bh = .ok s') :
    (∀ k, mapGet k (s'.rollbackTransaction tx bh).utxos = mapGet k s.utxos) ∧
    (∀ a k, indexHasKey (s'.rollbackTransaction tx bh) a k = indexHasKey s a k) ∧
    (s'.rollbackTransaction tx bh).totalSupply = s.totalSupply ∧
    (∀ i, i < tx.outputs.length →
      mapGet (tx.id, i) (s'.rollbackTransaction tx bh).utxos = none) ∧
    (∀ inp ∈ tx.inputs, inp.transactionId ≠ zeros64 →
      ∃ u, mapGet (inp.transactionId, inp.outputIndex)
        (s'.rollbackTransaction tx bh).utxos = some u ∧ u.spent = false) := by
  obtain ⟨sA, hpi, hs'⟩ := processTransaction_ok s s' tx bh hok
  have hinv0 : s.inv := wf_inv s hwf
  obtain ⟨hinvA, hndK, hPunt, hPcons, hPsup, _⟩ :=
    processInputs_spec tx.id bh tx.inputs s sA hinv0 hpi
  obtain ⟨hinvB, hBspent, hBlph, hBsup, hBunt, hBadd⟩ :=
    addOutputs_spec tx.id bh tx.outputs 0 sA hinvA
  have hU : s'.utxos = (addOutputs tx.id bh sA 0 tx.outputs).utxos := by rw [hs']
  have hI : s'.addressIndex = (addOutputs tx.id bh sA 0 tx.outputs).addressIndex := by
    rw [hs']
  have hS : s'.spentUTXOs = (addOutputs tx.id bh sA 0 tx.outputs).spentUTXOs := by
    rw [hs']
  have hT : s'.totalSupply = (addOutputs tx.id bh sA 0 tx.outputs).totalSupply := by
    rw [hs']
  have hICong : ∀ a k, indexHasKey s' a k
      = indexHasKey (addOutputs tx.id bh sA 0 tx.outputs) a k := by
    intro a k
    unfold indexHasKey
    rw [hI]
  have hinv' : s'.inv := by
    rw [hs']
    exact hinvB
  -- every outpoint consumed by the inputs differs from every output key
  have houtne : ∀ k ∈ nsKeys tx.inputs, ∀ i, i < tx.outputs.length → k ≠ (tx.id, i) := by
    intro k hk i hi hh
    obtain ⟨u, hu, _⟩ := hPcons k hk
    rw [hh, hfresh i hi] at hu
    exact Option.noConfusion hu
  -- presence of every output key in the state after application
  have hpresOut : ∀ i ∈ List.range tx.outputs.length,
      ∃ u, mapGet (tx.id, i) s'.utxos = some u := by
    intro i hi
    have hi' : i < tx.outputs.length := List.mem_range.mp hi
    refine ⟨UTXO.mkFresh tx.id i (tx.outputs.get ⟨i, hi'⟩).address
      (tx.outputs.get ⟨i, hi'⟩).amount bh (tx.outputs.get ⟨i, hi'⟩).scriptPubKey, ?_⟩
    rw [hU]
    have := (hBadd i hi').1
    simpa using this
  obtain ⟨dinv, dspent, dlph, dsup, dunt, ddel⟩ :=
    deleteFold_spec tx.id (List.range tx.outputs.length) s' hinv'
      (List.nodup_range _) hpresOut
  -- spent records available to the restore pass
  have hmarked : ∀ k ∈ nsKeys tx.inputs, ∀ u, mapGet k s.utxos = some u →
      mapGet k ((List.range tx.outputs.length).foldl
        (fun acc i => rollbackDeleteOutput tx.id i acc) s').spentUTXOs
      = some (u.markAsSpent tx.id bh) := by
    intro k hk u hu
    rw [dspent, hS, hBspent]
    obtain ⟨u', hu', _, _, hmark, _⟩ := hPcons k hk
    rw [hu] at hu'
    injection hu' with hu'
    subst hu'
    exact hmark
  have hpresSpent : ∀ k ∈ nsKeys tx.inputs,
      ∃ mk, mapGet k ((List.range tx.outputs.length).foldl
        (fun acc i => rollbackDeleteOutput tx.id i acc) s').spentUTXOs = some mk ∧
        mk.spentTxId = some tx.id := by
    intro k hk
    obtain ⟨u, hu, _⟩ := hPcons k hk
    exact ⟨u.markAsSpent tx.id bh, hmarked k hk u hu, rfl⟩
  obtain ⟨rinv, rlph, rsup, runt, rres⟩ :=
    restoreFold_spec tx.id tx.inputs
      ((List.range tx.outputs.length).foldl
        (fun acc i => rollbackDeleteOutput tx.id i acc) s')
      dinv hndK hpresSpent
  rw [rollbackTransaction_eq]
  -- the central per-key lookup equality
  have hget : ∀ k, mapGet k
      ((tx.inputs.foldl (fun acc inp => rollbackRestoreInput tx.id inp acc)
        ((List.range tx.outputs.length).foldl
          (fun acc i => rollbackDeleteOutput tx.id i acc) s'))).utxos
      = mapGet k s.utxos := by
    intro k
    by_cases hcons : k ∈ nsKeys tx.inputs
    · obtain ⟨u, hu, huspent, _, _, _⟩ := hPcons k hcons
      obtain ⟨re1, _⟩ := rres k hcons (u.markAsSpent tx.id bh) (hmarked k hcons u hu)
      rw [re1]
      obtain ⟨p1, p2, p3⟩ := wf_get_pristine s hwf k u hu
      rw [unmark_mark u _ _ p1 p2 p3, hu]
    · obtain ⟨re1, _⟩ := runt k hcons
      rw [re1]
      by_cases hout : ∃ i, i < tx.outputs.length ∧ k = (tx.id, i)
      · obtain ⟨i, hi, rfl⟩ := hout
        have h1 := (ddel i (List.mem_range.mpr hi)).1
        rw [h1, hfresh i hi]
      · push_neg at hout
        have hkout : ∀ i ∈ List.range tx.outputs.length, k ≠ (tx.id, i) := by
          intro i hi
          exact hout i (List.mem_range.mp hi)
        obtain ⟨e1, _⟩ := dunt k hkout
        rw [e1, hU]
        have hkout' : ∀ j, j < tx.outputs.length → k ≠ (tx.id, 0 + j) := by
          intro j hj
          simpa using hout j hj
        obtain ⟨e2, _⟩ := hBunt k hkout'
        rw [e2]
        exact (hPunt k hcons).1
  -- the central index equality
  have hidx : ∀ a k, indexHasKey
      ((tx.inputs.foldl (fun acc inp => rollbackRestoreInput tx.id inp acc)
        ((List.range tx.outputs.length).foldl
          (fun acc i => rollbackDeleteOutput tx.id i acc) s'))) a k
      = indexHasKey s a k := by
    intro a k
    apply boolExt
    by_cases hcons : k ∈ nsKeys tx.inputs
    · obtain ⟨u, hu, _, _, _, hPidx⟩ := hPcons k hcons
      obtain ⟨_, re2⟩ := rres k hcons (u.markAsSpent tx.id bh) (hmarked k hcons u hu)
      rw [re2 a]
      have hkout : ∀ i ∈ List.range tx.outputs.length, k ≠ (tx.id, i) := by
        intro i hi
        exact houtne k hcons i (List.mem_range.mp hi)
      obtain ⟨_, e2⟩ := dunt k hkout
      rw [e2 a, hICong a k]
      have hkout' : ∀ j, j < tx.outputs.length → k ≠ (tx.id, 0 + j) := by
        intro j hj
        simpa using houtne k hcons j hj
      obtain ⟨_, e3⟩ := hBunt k hkout'
      rw [e3 a, hPidx a]
      have haddr : (u.markAsSpent tx.id bh).address = u.address := rfl
      rw [haddr]
      constructor
      · rintro (⟨hh, _⟩ | hh)
        · exact hh
        · subst hh
          exact wf_index_complete s hwf k u hu
      · intro hh
        by_cases ha : a = u.address
        · exact Or.inr ha
        · exact Or.inl ⟨hh, ha⟩
    · obtain ⟨_, re2⟩ := runt k hcons
      rw [re2 a]
      by_cases hout : ∃ i, i < tx.outputs.length ∧ k = (tx.id, i)
      · obtain ⟨i, hi, rfl⟩ := hout
        have hsfalse : indexHasKey s a (tx.id, i) = false := by
          cases hcase : indexHasKey s a (tx.id, i) with
          | false => rfl
          | true =>
            obtain ⟨u', hu', _⟩ := wf_index_sound s hwf a (tx.id, i) hcase
            rw [hfresh i hi] at hu'
            exact absurd hu' (by simp)
        have hu' : mapGet (tx.id, i) s'.utxos
            = some (UTXO.mkFresh tx.id i (tx.outputs.get ⟨i, hi⟩).address
              (tx.outputs.get ⟨i, hi⟩).amount bh (tx.outputs.get ⟨i, hi⟩).scriptPubKey) := by
          rw [hU]
          have := (hBadd i hi).1
          simpa using this
        have h2 := (ddel i (List.mem_range.mpr hi)).2 _ hu' a
        have h4 := (hBadd i hi).2 a
        simp only [Nat.zero_add] at h4
        have hA := (hPunt (tx.id, i) hcons).2.2 a
        rw [h2, hsfalse]
        have haddr : (UTXO.mkFresh tx.id i (tx.outputs.get ⟨i, hi⟩).address
            (tx.outputs.get ⟨i, hi⟩).amount bh (tx.outputs.get ⟨i, hi⟩).scriptPubKey).address
            = (tx.outputs.get ⟨i, hi⟩).address := rfl
        constructor
        · rintro ⟨hh, hne⟩
          rw [hICong a (tx.id, i)] at hh
          rcases h4.mp hh with hh1 | hh1
          · rw [hA, hsfalse] at hh1
            exact absurd hh1 (by simp)
          · rw [haddr] at hne
            exact absurd hh1 hne
        · intro hh
          exact absurd hh (by simp)
      · push_neg at hout
        have hkout : ∀ i ∈ List.range tx.outputs.length, k ≠ (tx.id, i) := by
          intro i hi
          exact hout i (List.mem_range.mp hi)
        obtain ⟨_, e2⟩ := dunt k hkout
        rw [e2 a, hICong a k]
        have hkout' : ∀ j, j < tx.outputs.length → k ≠ (tx.id, 0 + j) := by
          intro j hj
          simpa using hout j hj
        obtain ⟨_, e3⟩ := hBunt k hkout'
        rw [e3 a]
        exact (hPunt k hcons).2.2 a
  have hAsum : utxosAmount s' ((List.range tx.outputs.length).map (fun i => (tx.id, i)))
      = outsAmount tx.outputs := by
    unfold utxosAmount outsAmount
    apply congrArg List.sum
    rw [List.map_map]
    apply List.ext_getElem
    · simp
    · intro i hi1 hi2
      have hi' : i < tx.outputs.length := by simpa using hi2
      simp only [List.getElem_map, List.getElem_range, Function.comp]
      have := (hBadd i hi').1
      have hthis : mapGet (tx.id, i) s'.utxos
          = some (UTXO.mkFresh tx.id i (tx.outputs.get ⟨i, hi'⟩).address
            (tx.outputs.get ⟨i, hi'⟩).amount bh (tx.outputs.get ⟨i, hi'⟩).scriptPubKey) := by
        rw [hU]
        simpa using this
      rw [hthis]
      simp [UTXO.mkFresh, List.get_eq_getElem]
  have hBsum : spentAmount ((List.range tx.outputs.length).foldl
      (fun acc i => rollbackDeleteOutput tx.id i acc) s') (nsKeys tx.inputs)
      = nsAmount s tx.inputs := by
    unfold spentAmount nsAmount
    apply congrArg List.sum
    apply List.map_congr_left
    intro k hk
    obtain ⟨u, hu, _⟩ := hPcons k hk
    rw [hmarked k hk u hu, hu]
    rfl
  have hsup : ((tx.inputs.foldl (fun acc inp => rollbackRestoreInput tx.id inp acc)
      ((List.range tx.outputs.length).foldl
        (fun acc i => rollbackDeleteOutput tx.id i acc) s'))).totalSupply
      = s.totalSupply := by
    rw [rsup, hBsum, dsup, hAsum, hT, hBsup, hPsup]
    ring
  refine ⟨hget, hidx, hsup, ?_, ?_⟩
  · intro i hi
    rw [hget]
    exact hfresh i hi
  · intro inp hmem hns
    have hk : ((inp.transactionId, inp.outputIndex) : Outpoint) ∈ nsKeys tx.inputs :=
      mem_nsKeys_of inp tx.inputs hmem hns
    obtain ⟨u, hu, huspent, _⟩ := hPcons _ hk
    exact ⟨u, by rw [hget]; exact hu, huspent⟩

/-! ## UTXOSet serialize/deserialize round trip -/

theorem mapSet_not_mem [DecidableEq κ] (k : κ) (v : α) (l : List (κ × α))
    (h : k ∉ l.map Prod.fst) : mapSet k v l = l ++ [(k, v)] := by
  induction l with
  | nil => rfl
  | cons p rest ih =>
    obtain ⟨k', v'⟩ := p
    simp only [List.map_cons, List.mem_cons] at h
    push_neg at h
    have h1 : ¬ k' = k := fun hh => h.1 hh.symm
    simp [mapSet_cons, h1, ih h.2]

theorem mapGet_eq_some_of_mem [DecidableEq κ] (k : κ) (v : α) (l : List (κ × α))
    (hnd : (l.map Prod.fst).Nodup) (h : (k, v) ∈ l) : mapGet k l = some v := by
  induction l with
  | nil => simp at h
  | cons p rest ih =>
    obtain ⟨k', v'⟩ := p
    simp only [List.map_cons, List.nodup_cons] at hnd
    simp only [List.mem_cons] at h
    rcases h with h | h
    · injection h with h1 h2
      subst h1; subst h2
      simp [mapGet_cons]
    · have hne : k' ≠ k := by
        intro hh
        subst hh
        exact hnd.1 (List.mem_map_of_mem Prod.fst h)
      simp [mapGet_cons, hne, ih hnd.2 h]

theorem addUTXO_fold_utxos :
    ∀ (vs : List UTXO) (acc : UTXOSet),
    (∀ v ∈ vs, v.getKey ∉ acc.utxos.map Prod.fst) →
    (vs.map UTXO.getKey).Nodup →
    (vs.foldl (fun s u => s.addUTXO u) acc).utxos
      = acc.utxos ++ vs.map (fun v => (v.getKey, v)) := by
  intro vs
  induction vs with
  | nil => intro acc _ _; simp
  | cons v rest ih =>
    intro acc hfresh hnd
    have hstep : (v :: rest).foldl (fun s u => s.addUTXO u) acc
        = rest.foldl (fun s u => s.addUTXO u) (acc.addUTXO v) := rfl
    rw [hstep]
    have hacc' : (acc.addUTXO v).utxos = acc.utxos ++ [(v.getKey, v)] := by
      unfold UTXOSet.addUTXO
      exact mapSet_not_mem _ _ _ (hfresh v (by simp))
    have hfresh' : ∀ v' ∈ rest, v'.getKey ∉ (acc.addUTXO v).utxos.map Prod.fst := by
      intro v' hv'
      rw [hacc']
      simp only [List.map_append, List.mem_append, List.map_cons]
      rintro (hh | hh)
      · exact hfresh v' (by simp [hv']) hh
      · simp only [List.map_nil, List.mem_cons, List.not_mem_nil, or_false] at hh
        have := (List.nodup_cons.mp hnd).1
        exact this (hh ▸ List.mem_map_of_mem UTXO.getKey hv')
    have := ih (acc.addUTXO v) hfresh' (List.nodup_cons.mp hnd).2
    rw [this, hacc']
    simp

theorem addUTXO_fold_spent :
    ∀ (vs : List UTXO) (acc : UTXOSet),
    (vs.foldl (fun s u => s.addUTXO u) acc).spentUTXOs = acc.spentUTXOs := by
  intro vs
  induction vs with
  | nil => intro acc; rfl
  | cons v rest ih =>
    intro acc
    have hstep : (v :: rest).foldl (fun s u => s.addUTXO u) acc
        = rest.foldl (fun s u => s.addUTXO u) (acc.addUTXO v) := rfl
    rw [hstep, ih, addUTXO_spent]

theorem mapSet_fold (vs : List UTXO) :
    ∀ (acc : List (Outpoint × UTXO)),
    (∀ v ∈ vs, v.getKey ∉ acc.map Prod.fst) →
    (vs.map UTXO.getKey).Nodup →
    vs.foldl (fun m (u : UTXO) => mapSet u.getKey u m) acc
      = acc ++ vs.map (fun v => (v.getKey, v)) := by
  induction vs with
  | nil => intro acc _ _; simp
  | cons v rest ih =>
    intro acc hfresh hnd
    have hstep : (v :: rest).foldl (fun m (u : UTXO) => mapSet u.getKey u m) acc
        = rest.foldl (fun m (u : UTXO) => mapSet u.getKey u m) (mapSet v.getKey v acc) := rfl
    rw [hstep]
    have hacc' : mapSet v.getKey v acc = acc ++ [(v.getKey, v)] :=
      mapSet_not_mem _ _ _ (hfresh v (by simp))
    have hfresh' : ∀ v' ∈ rest, v'.getKey ∉ (mapSet v.getKey v acc).map Prod.fst := by
      intro v' hv'
      rw [hacc']
      simp only [List.map_append, List.mem_append, List.map_cons]
      rintro (hh | hh)
      · exact hfresh v' (by simp [hv']) hh
      · simp only [List.map_nil, List.mem_cons, List.not_mem_nil, or_false] at hh
        have := (List.nodup_cons.mp hnd).1
        exact this (hh ▸ List.mem_map_of_mem UTXO.getKey hv')
    rw [ih (mapSet v.getKey v acc) hfresh' (List.nodup_cons.mp hnd).2, hacc']
    simp

theorem addUTXO_fold_index :
    ∀ (vs : List UTXO) (acc : UTXOSet) (a : String) (k : Outpoint),
    (indexHasKey (vs.foldl (fun s u => s.addUTXO u) acc) a k = true ↔
      (indexHasKey acc a k = true ∨ ∃ v ∈ vs, a = v.address ∧ k = v.getKey)) := by
  intro vs
  induction vs with
  | nil =>
    intro acc a k
    simp
  | cons v rest ih =>
    intro acc a k
    have hstep : (v :: rest).foldl (fun s u => s.addUTXO u) acc
        = rest.foldl (fun s u => s.addUTXO u) (acc.addUTXO v) := rfl
    rw [hstep, ih (acc.addUTXO v) a k]
    rw [addUTXO_index acc v a k]
    constructor
    · rintro ((hh | hh) | ⟨v', hv', hh⟩)
      · exact Or.inl hh
      · exact Or.inr ⟨v, by simp, hh⟩
      · exact Or.inr ⟨v', by simp [hv'], hh⟩
    · rintro (hh | ⟨v', hv', hh⟩)
      · exact Or.inl (Or.inl hh)
      · simp only [List.mem_cons] at hv'
        rcases hv' with hv' | hv'
        · subst hv'
          exact Or.inl (Or.inr hh)
        · exact Or.inr ⟨v', hv', hh⟩

theorem roundtrip_utxoset (s : UTXOSet) (hwf : s.wf = true) :
    (UTXOSet.deserialize s.serialize).utxos = s.utxos ∧
    (UTXOSet.deserialize s.serialize).spentUTXOs = s.spentUTXOs ∧
    (UTXOSet.deserialize s.serialize).totalSupply = s.totalSupply ∧
    (UTXOSet.deserialize s.serialize).lastProcessedHeight = s.lastProcessedHeight ∧
    (∀ a k, indexHasKey (UTXOSet.deserialize s.serialize) a k = indexHasKey s a k) := by
  obtain ⟨h1, h2, _, h4, h5, _, _, h8⟩ := wf_parts s hwf
  have hkeys : (s.utxos.map Prod.snd).map UTXO.getKey = s.utxos.map Prod.fst := by
    rw [List.map_map]
    apply List.map_congr_left
    intro p hp
    exact (h2 p hp).symm
  have hkeysSp : (s.spentUTXOs.map Prod.snd).map UTXO.getKey
      = s.spentUTXOs.map Prod.fst := by
    rw [List.map_map]
    apply List.map_congr_left
    intro p hp
    exact (h5 p hp).symm
  have hndv : ((s.utxos.map Prod.snd).map UTXO.getKey).Nodup := by rw [hkeys]; exact h1
  have hndsp : ((s.spentUTXOs.map Prod.snd).map UTXO.getKey).Nodup := by
    rw [hkeysSp]; exact h4
  have hpairs : (s.utxos.map Prod.snd).map (fun v => (v.getKey, v)) = s.utxos := by
    rw [List.map_map]
    have : ∀ p ∈ s.utxos, ((fun v => (UTXO.getKey v, v)) ∘ Prod.snd) p = p := by
      intro p hp
      simp only [Function.comp]
      rw [← h2 p hp]
    rw [List.map_congr_left this]
    simp
  have hpairsSp : (s.spentUTXOs.map Prod.snd).map (fun v => (v.getKey, v))
      = s.spentUTXOs := by
    rw [List.map_map]
    have : ∀ p ∈ s.spentUTXOs, ((fun v => (UTXO.getKey v, v)) ∘ Prod.snd) p = p := by
      intro p hp
      simp only [Function.comp]
      rw [← h5 p hp]
    rw [List.map_congr_left this]
    simp
  have hU : (UTXOSet.deserialize s.serialize).utxos = s.utxos := by
    show ((s.utxos.map Prod.snd).foldl (fun t u => t.addUTXO u) UTXOSet.empty).utxos
      = s.utxos
    rw [addUTXO_fold_utxos (s.utxos.map Prod.snd) UTXOSet.empty (by simp [UTXOSet.empty])
      hndv]
    simpa [UTXOSet.empty] using hpairs
  have hSp : (UTXOSet.deserialize s.serialize).spentUTXOs = s.spentUTXOs := by
    show (s.spentUTXOs.map Prod.snd).foldl (fun m (u : UTXO) => mapSet u.getKey u m)
      ((s.utxos.map Prod.snd).foldl (fun t u => t.addUTXO u) UTXOSet.empty).spentUTXOs
      = s.spentUTXOs
    rw [addUTXO_fold_spent]
    rw [mapSet_fold (s.spentUTXOs.map Prod.snd) _ (by simp [UTXOSet.empty]) hndsp]
    simpa [UTXOSet.empty] using hpairsSp
  refine ⟨hU, hSp, rfl, rfl, ?_⟩
  intro a k
  apply boolExt
  have hIdx : indexHasKey (UTXOSet.deserialize s.serialize) a k
      = indexHasKey ((s.utxos.map Prod.snd).foldl
          (fun t u => t.addUTXO u) UTXOSet.empty) a k := rfl
  rw [hIdx, addUTXO_fold_index (s.utxos.map Prod.snd) UTXOSet.empty a k]
  constructor
  · rintro (hh | ⟨v, hv, ha, hk⟩)
    · simp [indexHasKey, UTXOSet.empty, mapGet] at hh
    · subst ha
      subst hk
      simp only [List.mem_map] at hv
      obtain ⟨p, hp, rfl⟩ := hv
      rw [← h2 p hp]
      exact h8 p hp
  · intro hh
    obtain ⟨u, hu, ha⟩ := wf_index_sound s hwf a k hh
    have hmem : (k, u) ∈ s.utxos := mem_of_mapGet_some _ _ _ hu
    exact Or.inr ⟨u, List.mem_map_of_mem Prod.snd hmem, ha.symm, h2 (k, u) hmem⟩

/-! ## Claim C5 -/

/-- C5: whenever Blockchain.addBlock fails — because block validation
fails or because applying one of the block's transactions to the UTXO set
throws — it returns the error and leaves the chain, the mempool and every
configuration field exactly as they were, and the UTXO set it leaves
behind (on the application-failure path, the one restored from the
serialize snapshot through deserialize) is observationally equal to the
pre-call set: same lookups of live and spent UTXOs, same address-index
membership, same total supply and height watermark.  No half-applied
block survives. -/
theorem C5_addBlock_failure_preserves_state (H derive : String → String)
    (V : VerifyFn) (now : Int) (bc : Blockchain) (b : Block) (e : AddBlockError)
    (hwf : bc.utxoSet.wf = true)
    (hfail : (Blockchain.addBlock H derive V now bc b).1 = .error e) :
    (Blockchain.addBlock H derive V now bc b).2.chain = bc.chain ∧
    (Blockchain.addBlock H derive V now bc b).2.mempool = bc.mempool ∧
    (Blockchain.addBlock H derive V now bc b).2.difficulty = bc.difficulty ∧
    (Blockchain.addBlock H derive V now bc b).2.targetBlockTime = bc.targetBlockTime ∧
    UTXOSet.ObsEq (Blockchain.addBlock H derive V now bc b).2.utxoSet bc.utxoSet := by
  unfold Blockchain.addBlock at hfail ⊢
  cases hv : Block.isValid H derive V now b bc.getLatestBlock (some bc.utxoSet) with
  | error r =>
    exact ⟨rfl, rfl, rfl, rfl, fun k => rfl, fun k => rfl, fun a k => rfl, rfl, rfl⟩
  | ok u =>
    cases u
    rw [hv] at hfail
    cases hpt : processBlockTxs b.header.height bc.utxoSet b.transactions with
    | ok s2 =>
      rw [hpt] at hfail
      exact Except.noConfusion hfail
    | error e2 =>
      obtain ⟨r1, r2, r3, r4, r5⟩ := roundtrip_utxoset bc.utxoSet hwf
      refine ⟨rfl, rfl, rfl, rfl, ?_, ?_, ?_, r3, r4⟩
      · intro k
        show mapGet k (UTXOSet.deserialize bc.utxoSet.serialize).utxos
          = mapGet k bc.utxoSet.utxos
        rw [r1]
      · intro k
        show mapGet k (UTXOSet.deserialize bc.utxoSet.serialize).spentUTXOs
          = mapGet k bc.utxoSet.spentUTXOs
        rw [r2]
      · intro a k
        show indexHasKey (UTXOSet.deserialize bc.utxoSet.serialize) a k
          = indexHasKey bc.utxoSet a k
        exact r5 a k

/-- Witness for C5: the block blockC5b validates against bcC5 (each of
its transactions is individually valid against the snapshot) but its two
transfers spend the same outpoint, so the application throws on the
second one; the call fails and the state is preserved. -/
theorem C5_addBlock_failure_preserves_state_witness :
    bcC5.utxoSet.wf = true ∧
    (Blockchain.addBlock Hconst deriveNone Vfalse 10000 bcC5 blockC5b).1
      = .error (.utxoUpdateFailed "x52" ("t5", 0)) ∧
    (Blockchain.addBlock Hconst deriveNone Vfalse 10000 bcC5 blockC5b).2.chain
      = bcC5.chain ∧
    (Blockchain.addBlock Hconst deriveNone Vfalse 10000 bcC5 blockC5b).2.mempool
      = bcC5.mempool ∧
    mapGet ("t5", 0)
      (Blockchain.addBlock Hconst deriveNone Vfalse 10000 bcC5 blockC5b).2.utxoSet.utxos
      = mapGet ("t5", 0) bcC5.utxoSet.utxos ∧
    (Blockchain.addBlock Hconst deriveNone Vfalse 10000 bcC5 blockC5b).2.utxoSet.totalSupply
      = bcC5.utxoSet.totalSupply := by
  have hfl : (Blockchain.addBlock Hconst deriveNone Vfalse 10000 bcC5 blockC5b).1
      = .error (.utxoUpdateFailed "x52" ("t5", 0)) := by
    norm_num +decide [Blockchain.addBlock, Block.isValid, BlockHeader.isValid,
      Blockchain.getLatestBlock, bcC5, blockC5b, blockC5g, headerC5b, headerC5g,
      BlockHeader.calculateHash, BlockHeader.headerString, Hconst, hex64a,
      isValidHash, isValidHashFormat, isLowerHexDigit, Block.calcMerkleRoot,
      calculateMerkleRoot, calculateMerkleRootFuel, merkleCombine, merklePad,
      Block.isCoinbaseTransaction, txC5cb, txC5a, txC5b, cbInput, zeros64,
      coinbaseOutputIndex, checkBlockTxs, Transaction.isValid, Transaction.isCoinbase,
      checkTxInputs, UTXOSet.getUTXO, usetC5, UTXOSet.empty, UTXOSet.addUTXO,
      UTXO.mkFresh, UTXO.getKey, mapGet, mapSet, setAdd,
      Transaction.validateScript, Transaction.getInputAmount, Transaction.getOutputAmount,
      processBlockTxs, UTXOSet.processTransaction, processInputs, addOutputs,
      UTXOSet.removeUTXO, UTXO.markAsSpent, setDel, mapDel, TransactionOutput.mkFresh]
  have h := C5_addBlock_failure_preserves_state Hconst deriveNone Vfalse 10000 bcC5
    blockC5b (.utxoUpdateFailed "x52" ("t5", 0)) (by decide) hfl
  exact ⟨by decide, hfl, h.1, h.2.1, h.2.2.2.2.1 ("t5", 0), h.2.2.2.2.2.2.2.1⟩

/-! ## Claim C4 -/

/-- C4 (code bug): the block blockC4b — whose merkle root and header hash
recompute correctly, but whose hash aaa…a has not a single leading zero
while its stored difficulty is 2 — is accepted by Blockchain.addBlock and
appended to the chain.  The proof-of-work clause of the claim fails on
this accepted block: the second declaration of CryptoUtils.isValidHash
shadows the difficulty-target check of lines 76-79, so Block.isValid only
checks the 64-hex format and ignores the difficulty. -/
theorem C4_pow_not_enforced_on_accepted_block :
    (Blockchain.addBlock Hconst deriveNone Vfalse 10000 bcC4 blockC4b).1 = .ok () ∧
    (Blockchain.addBlock Hconst deriveNone Vfalse 10000 bcC4 blockC4b).2.chain
      = [blockC4g, blockC4b] ∧
    blockC4b.header.merkleRoot = blockC4b.calcMerkleRoot Hconst ∧
    blockC4b.hash = blockC4b.header.calculateHash Hconst ∧
    blockC4b.header.difficulty = 2 ∧
    isValidHashPoW blockC4b.hash blockC4b.header.difficulty = false := by
  refine ⟨rfl, by decide, by decide, by decide, by decide, by decide⟩

/-! ## Claim C6 -/

/-- C6 (code bug): serialising bcC6 and deserialising it back preserves
the chain height and the UTXO total supply, but not the tip block hash:
BlockHeader.serialize writes neither difficulty nor nonce, so the
restored header falls back to difficulty 1 and nonce 0 and
Block.deserialize recomputes a hash over the changed header string — the
original tip was mined at difficulty 2 with nonce 1, and its hash 1p5211
comes back as 1p5101. -/
theorem C6_roundtrip_changes_tip_hash :
    bcC6'.chain.length = bcC6.chain.length ∧
    bcC6'.utxoSet.totalSupply = bcC6.utxoSet.totalSupply ∧
    bcC6.chain.getLast?.map Block.hash = some "1p5211" ∧
    bcC6'.chain.getLast?.map Block.hash = some "1p5101" ∧
    bcC6'.chain.getLast?.map Block.hash ≠ bcC6.chain.getLast?.map Block.hash ∧
    bcC6.chain.getLast?.map (fun b => b.header.nonce) = some 1 ∧
    bcC6'.chain.getLast?.map (fun b => b.header.nonce) = some 0 ∧
    bcC6.chain.getLast?.map (fun b => b.header.difficulty) = some 2 ∧
    bcC6'.chain.getLast?.map (fun b => b.header.difficulty) = some 1 := by
  refine ⟨rfl, rfl, by decide, by decide, by decide, by decide, by decide,
    by decide, by decide⟩

/-! ## Claim C10 -/

/-- C10: Block.createGenesisBlock always returns a block of height 0,
all-zero previous hash, the fixed timestamp 1640995200000, difficulty 1
and nonce 0, whose hash is computed once from the header with no
proof-of-work search; the Blockchain constructor makes the chain exactly
this genesis block.  The closed instance under the constant hash Hf shows
the genesis block is admitted although its hash fails the proof-of-work
target for its stored difficulty, while its miner-funding transaction
brings the UTXO supply to 10. -/
theorem C10_genesis_block_constants (H : String → String) (txs : List Transaction)
    (Htx : TxIdContent → String) (now : Int) (cfg : BlockchainConfig) :
    (Block.createGenesisBlock H txs).header.height = 0 ∧
    (Block.createGenesisBlock H txs).header.previousBlockHash = zeros64 ∧
    (Block.createGenesisBlock H txs).header.timestamp = 1640995200000 ∧
    (Block.createGenesisBlock H txs).header.difficulty = 1 ∧
    (Block.createGenesisBlock H txs).header.nonce = 0 ∧
    (Block.createGenesisBlock H txs).hash
      = (Block.createGenesisBlock H txs).header.calculateHash H ∧
    (Blockchain.init H Htx now cfg).chain
      = [Block.createGenesisBlock H
          (Blockchain.createGenesisTransactions Htx now cfg.initialMinerAddress)] ∧
    ((Blockchain.init Hf HtxConst 0 cfgC10).chain.map
      (fun b => isValidHashPoW b.hash b.header.difficulty)) = [false] ∧
    (Blockchain.init Hf HtxConst 0 cfgC10).utxoSet.totalSupply = 10 := by
  refine ⟨rfl, rfl, rfl, rfl, rfl, rfl, rfl, by decide, ?_⟩
  norm_num +decide [Blockchain.init, Blockchain.createGenesisTransactions,
    Transaction.createCoinbase, Transaction.updateId, Transaction.idContent,
    TransactionInput.createCoinbase, TransactionInput.serialize, HtxConst, cfgC10,
    processBlockTxs, UTXOSet.processTransaction, processInputs, addOutputs,
    UTXOSet.addUTXO, UTXO.mkFresh, UTXO.getKey, UTXOSet.empty, zeros64,
    TransactionOutput.mkFresh, mapGet, mapSet, setAdd]

/-! ## Claim C3 -/

/-- When a non-coinbase transaction passes Transaction.isValid, the final
amount check cannot have fired: the input total covers the output
total. -/
theorem isValid_ok_no_deficit (derive : String → String) (V : VerifyFn)
    (uset : UTXOSet) (tx : Transaction) (skip : Bool)
    (h : tx.isCoinbase = false)
    (hok : Transaction.isValid derive V uset tx skip = .ok ()) :
    ¬ tx.getInputAmount uset < tx.getOutputAmount := by
  intro hlt
  unfold Transaction.isValid at hok
  rw [h] at hok
  simp only [Bool.false_eq_true, if_false] at hok
  by_cases h1 : tx.inputs.isEmpty = true
  · simp [h1] at hok
  · rw [if_neg h1] at hok
    by_cases h2 : tx.outputs.isEmpty = true
    · simp [h2] at hok
    · rw [if_neg h2] at hok
      cases hc : checkTxInputs derive V uset skip 0 tx.inputs with
      | error e =>
        rw [hc] at hok
        exact Except.noConfusion hok
      | ok u =>
        cases u
        rw [hc, if_pos hlt] at hok
        exact Except.noConfusion hok

/-- C3: calculateFee returns 0 for a coinbase transaction and input total
minus output total otherwise; a non-coinbase transaction accepted by
Transaction.isValid has output total at most input total — so its fee is
nonnegative — and one whose input total is below its output total is
never accepted. -/
theorem C3_fee_and_conservation (derive : String → String) (V : VerifyFn)
    (uset : UTXOSet) (tx : Transaction) (skip : Bool) :
    (tx.isCoinbase = true → tx.calculateFee uset = 0) ∧
    (tx.isCoinbase = false →
      tx.calculateFee uset = tx.getInputAmount uset - tx.getOutputAmount) ∧
    (tx.isCoinbase = false → Transaction.isValid derive V uset tx skip = .ok () →
      tx.getOutputAmount ≤ tx.getInputAmount uset ∧ 0 ≤ tx.calculateFee uset) ∧
    (tx.isCoinbase = false → tx.getInputAmount uset < tx.getOutputAmount →
      Transaction.isValid derive V uset tx skip ≠ .ok ()) := by
  refine ⟨?_, ?_, ?_, ?_⟩
  · intro h
    unfold Transaction.calculateFee
    rw [h]
    simp
  · intro h
    unfold Transaction.calculateFee
    rw [h]
    simp
  · intro h hok
    have hle : tx.getOutputAmount ≤ tx.getInputAmount uset :=
      le_of_not_lt (isValid_ok_no_deficit derive V uset tx skip h hok)
    refine ⟨hle, ?_⟩
    unfold Transaction.calculateFee
    rw [h]
    simp only [Bool.false_eq_true, if_false]
    linarith
  · intro h hlt hok
    exact isValid_ok_no_deficit derive V uset tx skip h hok hlt

/-- Witness for C3: the transfer txC3 spends the 5-token UTXO of usetC3
into a 3-token output; it validates and its fee is 2 = 5 - 3. -/
theorem C3_fee_and_conservation_witness :
    txC3.isCoinbase = false ∧
    Transaction.isValid deriveNone Vfalse usetC3 txC3 false = .ok () ∧
    txC3.getOutputAmount ≤ txC3.getInputAmount usetC3 ∧
    0 ≤ txC3.calculateFee usetC3 ∧
    txC3.calculateFee usetC3 = txC3.getInputAmount usetC3 - txC3.getOutputAmount := by
  have h := C3_fee_and_conservation deriveNone Vfalse usetC3 txC3 false
  have hnc : txC3.isCoinbase = false := by decide
  have hok : Transaction.isValid deriveNone Vfalse usetC3 txC3 false = .ok () := by
    norm_num +decide [Transaction.isValid, Transaction.isCoinbase, txC3, usetC3,
      checkTxInputs, UTXOSet.getUTXO, UTXOSet.empty, UTXOSet.addUTXO, UTXO.mkFresh,
      UTXO.getKey, mapGet, mapSet, setAdd, Transaction.validateScript, zeros64,
      Transaction.getInputAmount, Transaction.getOutputAmount,
      TransactionOutput.mkFresh]
  exact ⟨hnc, hok, (h.2.2.1 hnc hok).1, (h.2.2.1 hnc hok).2, h.2.1 hnc⟩

/-! ## Claim C2 -/

/-- Transaction.validateScript succeeds exactly when the input carries
the custom_exchange sentinel, or all of the checks of lines 372-425
hold. -/
theorem validateScript_ok_iff (derive : String → String) (V : VerifyFn)
    (input : TransactionInput) (utxo : UTXO) (i : Nat) :
    Transaction.validateScript derive V input utxo i = .ok () ↔
      (input.scriptSig = "custom_exchange" ∨
       (input.scriptSig ≠ "" ∧ input.publicKey ≠ "" ∧ utxo.scriptPubKey ≠ "" ∧
        generateAddress derive input.publicKey (some utxo.address) = utxo.address ∧
        utxo.scriptPubKey = utxo.address ∧
        V ⟨utxo.transactionId, i, utxo.address, utxo.amount⟩
          input.scriptSig input.publicKey = true)) := by
  unfold Transaction.validateScript
  by_cases h1 : input.scriptSig = "custom_exchange"
  · simp [h1]
  · rw [if_neg h1]
    by_cases h2 : input.scriptSig = ""
    · simp [h1, h2]
    · by_cases h3 : input.publicKey = ""
      · simp [h1, h2, h3]
      · by_cases h4 : utxo.scriptPubKey = ""
        · simp [h1, h2, h3, h4]
        · by_cases h5 : generateAddress derive input.publicKey (some utxo.address)
              = utxo.address
          · by_cases h6 : utxo.scriptPubKey = utxo.address
            · have h4a : ¬ utxo.address = "" := by
                rw [← h6]
                exact h4
              by_cases h7 : V ⟨utxo.transactionId, i, utxo.address, utxo.amount⟩
                  input.scriptSig input.publicKey = true
              · simp [h1, h2, h3, h4, h4a, h5, h6, h7]
              · simp [h1, h2, h3, h4, h4a, h5, h6, h7]
            · simp [h1, h2, h3, h4, h5, h6]
          · simp [h1, h2, h3, h4, h5]

/-- When the per-input loop of Transaction.isValid succeeds without
signature skipping, every input of the list resolved to a live UTXO and
passed validateScript at its running index. -/
theorem checkTxInputs_ok_all (derive : String → String) (V : VerifyFn)
    (uset : UTXOSet) :
    ∀ (l : List TransactionInput) (i : Nat),
    checkTxInputs derive V uset false i l = .ok () →
    ∀ n (hn : n < l.length),
      ∃ u, uset.getUTXO (l.get ⟨n, hn⟩).transactionId
          (l.get ⟨n, hn⟩).outputIndex = some u ∧
        u.spent = false ∧
        Transaction.validateScript derive V (l.get ⟨n, hn⟩) u (i + n) = .ok () := by
  intro l
  induction l with
  | nil =>
    intro i h n hn
    exact absurd hn (by simp)
  | cons inp rest ih =>
    intro i h n hn
    unfold checkTxInputs at h
    cases hu : uset.getUTXO inp.transactionId inp.outputIndex with
    | none =>
      simp only [hu] at h
      exact Except.noConfusion h
    | some u =>
      simp only [hu] at h
      by_cases hsp : u.spent = true
      · rw [if_pos hsp] at h
        exact Except.noConfusion h
      · rw [if_neg hsp] at h
        simp only [Bool.false_eq_true, if_false] at h
        cases hv : Transaction.validateScript derive V inp u i with
        | error r =>
          simp only [hv] at h
          exact Except.noConfusion h
        | ok v =>
          cases v
          simp only [hv] at h
          cases n with
          | zero =>
            refine ⟨u, hu, by simpa using hsp, ?_⟩
            rw [Nat.add_zero]
            exact hv
          | succ m =>
            have hm : m < rest.length := by
              simpa using Nat.lt_of_succ_lt_succ hn
            obtain ⟨u', hr1, hr2, hr3⟩ := ih (i + 1) h m hm
            refine ⟨u', hr1, hr2, ?_⟩
            have harith : i + 1 + m = i + (m + 1) := by omega
            rw [← harith]
            exact hr3

/-- C2 (amended): for every non-coinbase transaction accepted by
Transaction.isValid without skipSignatureVerification, every input
resolved to a live UTXO and passed validateScript — which holds exactly
when the input carries the custom_exchange sentinel bypass the claim does
not mention, or else the claimed checks all hold: signature and key are
nonempty, the UTXO carries a scriptPubKey, the address generated from the
public key (with the UTXO address offered as trusted fromAddress) equals
the UTXO address, the scriptPubKey equals the UTXO address, and the
signature verifies over the canonical message of the referenced
transaction id, input index, owner address and amount. -/
theorem C2_accepted_inputs_pass_script (derive : String → String) (V : VerifyFn)
    (uset : UTXOSet) (tx : Transaction)
    (hnc : tx.isCoinbase = false)
    (hok : Transaction.isValid derive V uset tx false = .ok ()) :
    ∀ n (hn : n < tx.inputs.length),
      ∃ u, uset.getUTXO (tx.inputs.get ⟨n, hn⟩).transactionId
          (tx.inputs.get ⟨n, hn⟩).outputIndex = some u ∧
        u.spent = false ∧
        ((tx.inputs.get ⟨n, hn⟩).scriptSig = "custom_exchange" ∨
         ((tx.inputs.get ⟨n, hn⟩).scriptSig ≠ "" ∧
          (tx.inputs.get ⟨n, hn⟩).publicKey ≠ "" ∧
          u.scriptPubKey ≠ "" ∧
          generateAddress derive (tx.inputs.get ⟨n, hn⟩).publicKey (some u.address)
            = u.address ∧
          u.scriptPubKey = u.address ∧
          V ⟨u.transactionId, n, u.address, u.amount⟩
            (tx.inputs.get ⟨n, hn⟩).scriptSig (tx.inputs.get ⟨n, hn⟩).publicKey
            = true)) := by
  have hcheck : checkTxInputs derive V uset false 0 tx.inputs = .ok () := by
    unfold Transaction.isValid at hok
    rw [hnc] at hok
    simp only [Bool.false_eq_true, if_false] at hok
    by_cases h1 : tx.inputs.isEmpty = true
    · simp [h1] at hok
    · rw [if_neg h1] at hok
      by_cases h2 : tx.outputs.isEmpty = true
      · simp [h2] at hok
      · rw [if_neg h2] at hok
        cases hc : checkTxInputs derive V uset false 0 tx.inputs with
        | error e =>
          rw [hc] at hok
          exact Except.noConfusion hok
        | ok v =>
          cases v
          rfl
  intro n hn
  obtain ⟨u, h1, h2, h3⟩ := checkTxInputs_ok_all derive V uset tx.inputs 0 hcheck n hn
  rw [validateScript_ok_iff] at h3
  rw [Nat.zero_add] at h3
  exact ⟨u, h1, h2, h3⟩

/-- C2 counterexample: under the oracle Vfalse that validates no
signature at all, the non-coinbase transaction txC2 — whose single input
carries the literal scriptSig custom_exchange and an empty public key —
passes Transaction.isValid with full signature verification: its
signature cannot verify, yet the input is accepted through the sentinel
bypass of validateScript. -/
theorem C2_counterexample_custom_exchange_bypass :
    txC2.isCoinbase = false ∧
    Transaction.isValid deriveNone Vfalse usetC2 txC2 false = .ok () ∧
    Vfalse ⟨"t2", 0, "A", 5⟩ "custom_exchange" "" = false := by
  refine ⟨by decide, ?_, rfl⟩
  norm_num +decide [Transaction.isValid, Transaction.isCoinbase, txC2, usetC2,
    checkTxInputs, UTXOSet.getUTXO, UTXOSet.empty, UTXOSet.addUTXO, UTXO.mkFresh,
    UTXO.getKey, mapGet, mapSet, setAdd, Transaction.validateScript, zeros64,
    Transaction.getInputAmount, Transaction.getOutputAmount,
    TransactionOutput.mkFresh]

/-- Witness for C2: the theorem instantiated at txC2 and its only
input. -/
theorem C2_accepted_inputs_pass_script_witness :
    txC2.isCoinbase = false ∧
    Transaction.isValid deriveNone Vfalse usetC2 txC2 false = .ok () ∧
    usetC2.getUTXO "t2" 0 = some (UTXO.mkFresh "t2" 0 "A" 5 0 "A") ∧
    (UTXO.mkFresh "t2" 0 "A" 5 0 "A").spent = false ∧
    (("custom_exchange" : String) = "custom_exchange" ∨
     (("custom_exchange" : String) ≠ "" ∧ ("" : String) ≠ "" ∧ ("A" : String) ≠ "" ∧
      generateAddress deriveNone "" (some "A") = "A" ∧ ("A" : String) = "A" ∧
      Vfalse ⟨"t2", 0, "A", 5⟩ "custom_exchange" "" = true)) := by
  have hnc : txC2.isCoinbase = false := by decide
  have hok : Transaction.isValid deriveNone Vfalse usetC2 txC2 false = .ok () := by
    norm_num +decide [Transaction.isValid, Transaction.isCoinbase, txC2, usetC2,
      checkTxInputs, UTXOSet.getUTXO, UTXOSet.empty, UTXOSet.addUTXO, UTXO.mkFresh,
      UTXO.getKey, mapGet, mapSet, setAdd, Transaction.validateScript, zeros64,
      Transaction.getInputAmount, Transaction.getOutputAmount,
      TransactionOutput.mkFresh]
  obtain ⟨u, h1, h2, h3⟩ :=
    C2_accepted_inputs_pass_script deriveNone Vfalse usetC2 txC2 hnc hok 0 (by decide)
  have h1' : usetC2.getUTXO "t2" 0 = some (UTXO.mkFresh "t2" 0 "A" 5 0 "A") := rfl
  have hu : u = UTXO.mkFresh "t2" 0 "A" 5 0 "A" := Option.some.inj (h1.symm.trans h1')
  subst hu
  exact ⟨hnc, hok, h1', rfl, h3⟩

/-! ## Claim C1 -/

/-- When the key-collection pass of checkDoubleSpending succeeds, the
collected keys are the accumulator followed by the non-sentinel outpoint
keys of the inputs, those keys are duplicate-free, and none of them was
already in the accumulator. -/
theorem buildInputKeys_ok :
    ∀ (l : List TransactionInput) (acc keys : List Outpoint),
    buildInputKeys acc l = .ok keys →
    keys = acc ++ nsKeys l ∧ (nsKeys l).Nodup ∧ ∀ k ∈ nsKeys l, k ∉ acc := by
  intro l
  induction l with
  | nil =>
    intro acc keys h
    unfold buildInputKeys at h
    injection h with h
    subst h
    simp [nsKeys_nil]
  | cons inp rest ih =>
    intro acc keys h
    unfold buildInputKeys at h
    by_cases hs : inp.transactionId = zeros64
    · rw [if_pos hs] at h
      rw [nsKeys_cons_sen inp rest hs]
      exact ih acc keys h
    · rw [if_neg hs] at h
      by_cases hmem : ((inp.transactionId, inp.outputIndex) : Outpoint) ∈ acc
      · rw [if_pos hmem] at h
        exact Except.noConfusion h
      · rw [if_neg hmem] at h
        obtain ⟨ha, hb, hc⟩ := ih (acc ++ [(inp.transactionId, inp.outputIndex)]) keys h
        rw [nsKeys_cons_ns inp rest hs]
        refine ⟨?_, ?_, ?_⟩
        · rw [ha, List.append_assoc]
          rfl
        · rw [List.nodup_cons]
          refine ⟨?_, hb⟩
          intro hmem2
          exact (hc _ hmem2) (by simp)
        · intro k hk
          rcases List.mem_cons.mp hk with hk | hk
          · subst hk
            exact hmem
          · intro hka
            exact hc k hk (by simp [hka])

/-- If some mempool transaction has a non-sentinel input whose outpoint
is among the submitted keys, the conflict scan reports a
double-spend-in-mempool error. -/
theorem checkMempoolConflicts_conflict (keys : List Outpoint) :
    ∀ (pool : List (String × Transaction)),
    (∃ p ∈ pool, ∃ inp ∈ p.2.inputs, inp.transactionId ≠ zeros64 ∧
      ((inp.transactionId, inp.outputIndex) : Outpoint) ∈ keys) →
    ∃ tid k, checkMempoolConflicts keys pool = .error (.doubleSpendInMempool tid k) := by
  intro pool
  induction pool with
  | nil =>
    intro h
    obtain ⟨p, hp, _⟩ := h
    exact absurd hp (List.not_mem_nil p)
  | cons q rest ih =>
    intro h
    obtain ⟨tid0, mtx0⟩ := q
    unfold checkMempoolConflicts
    cases hf : mtx0.inputs.find? (fun inp =>
        inp.transactionId ≠ zeros64 &&
        ((inp.transactionId, inp.outputIndex) ∈ keys : Bool)) with
    | some inp =>
      exact ⟨tid0, (inp.transactionId, inp.outputIndex), rfl⟩
    | none =>
      obtain ⟨p, hp, inp, hinp, hns, hkey⟩ := h
      rcases List.mem_cons.mp hp with hp | hp
      · subst hp
        have := List.find?_eq_none.mp hf inp hinp
        simp only [Bool.and_eq_true, decide_eq_true_eq, not_and] at this
        exact absurd hkey (by simpa using this hns)
      · exact ih ⟨p, hp, inp, hinp, hns, hkey⟩

/-- A conflicting transaction makes checkDoubleSpending report one of the
two double-spend errors. -/
theorem checkDoubleSpending_conflict (bc : Blockchain) (tx : Transaction)
    (hconf : MempoolConflict bc tx) :
    ∃ e, bc.checkDoubleSpending tx = .error e ∧ e.isDoubleSpend = true := by
  unfold Blockchain.checkDoubleSpending
  cases hbk : buildInputKeys [] tx.inputs with
  | error k =>
    exact ⟨.doubleSpendInTransaction k, rfl, rfl⟩
  | ok keys =>
    obtain ⟨ha, hb, _⟩ := buildInputKeys_ok tx.inputs [] keys hbk
    rw [List.nil_append] at ha
    subst ha
    rcases hconf with hconf | hconf
    · exact absurd hb hconf
    · obtain ⟨k, hk, p, hp, inp, hinp, hns, hkey⟩ := hconf
      have : ∃ p ∈ bc.mempool, ∃ inp ∈ p.2.inputs, inp.transactionId ≠ zeros64 ∧
          ((inp.transactionId, inp.outputIndex) : Outpoint) ∈ nsKeys tx.inputs := by
        refine ⟨p, hp, inp, hinp, hns, ?_⟩
        rw [hkey]
        exact hk
      obtain ⟨tid, k', hcm⟩ := checkMempoolConflicts_conflict (nsKeys tx.inputs)
        bc.mempool this
      exact ⟨.doubleSpendInMempool tid k', hcm, rfl⟩

/-- C1: a transaction conflicting with the mempool — one that spends a
non-sentinel outpoint twice among its own inputs, or shares one with the
inputs of a transaction already in the mempool — is never inserted by
addTransactionToMempool: the call fails, the blockchain (mempool
included) is returned unchanged, and when the transaction is otherwise
valid and not a duplicate id the reported error is one of the two
double-spend errors. -/
theorem C1_conflicting_tx_rejected (derive : String → String) (V : VerifyFn)
    (bc : Blockchain) (tx : Transaction)
    (hconf : MempoolConflict bc tx) :
    (Blockchain.addTransactionToMempool derive V bc tx).1 ≠ .ok () ∧
    (Blockchain.addTransactionToMempool derive V bc tx).2 = bc ∧
    (Transaction.isValid derive V bc.utxoSet tx false = .ok () →
     mapGet tx.id bc.mempool = none →
     ∃ e, (Blockchain.addTransactionToMempool derive V bc tx).1 = .error e ∧
       e.isDoubleSpend = true) := by
  obtain ⟨e0, he0, hds0⟩ := checkDoubleSpending_conflict bc tx hconf
  unfold Blockchain.addTransactionToMempool
  cases hv : Transaction.isValid derive V bc.utxoSet tx false with
  | error r =>
    exact ⟨fun hh => Except.noConfusion hh, rfl,
      fun hok _ => Except.noConfusion hok⟩
  | ok v =>
    cases v
    by_cases hdup : (mapGet tx.id bc.mempool).isSome = true
    · rw [if_pos hdup]
      refine ⟨fun hh => Except.noConfusion hh, rfl, fun _ hnone => ?_⟩
      rw [hnone] at hdup
      exact absurd hdup (by simp)
    · rw [if_neg hdup]
      rw [he0]
      exact ⟨fun hh => Except.noConfusion hh, rfl, fun _ _ => ⟨e0, rfl, hds0⟩⟩

/-- Witness for C1: txC1b spends the outpoint (t1, 0) already reserved by
the mempool transaction txC1a of bcC1, and is rejected with the
double-spend-in-mempool error naming that transaction and outpoint. -/
theorem C1_conflicting_tx_rejected_witness :
    (Blockchain.addTransactionToMempool deriveNone Vfalse bcC1 txC1b).1 ≠ .ok () ∧
    (Blockchain.addTransactionToMempool deriveNone Vfalse bcC1 txC1b).2 = bcC1 ∧
    (Blockchain.addTransactionToMempool deriveNone Vfalse bcC1 txC1b).1
      = .error (.doubleSpendInMempool "w1" ("t1", 0)) ∧
    MempoolError.isDoubleSpend (.doubleSpendInMempool "w1" ("t1", 0)) = true := by
  have hconf : MempoolConflict bcC1 txC1b := by
    unfold MempoolConflict
    right
    refine ⟨("t1", 0), by decide, ("w1", txC1a), List.mem_cons_self _ _, ?_⟩
    exact ⟨⟨"t1", 0, "custom_exchange", "", 4294967295, none⟩,
      List.mem_cons_self _ _, by decide, rfl⟩
  have h := C1_conflicting_tx_rejected deriveNone Vfalse bcC1 txC1b hconf
  have herr : (Blockchain.addTransactionToMempool deriveNone Vfalse bcC1 txC1b).1
      = .error (.doubleSpendInMempool "w1" ("t1", 0)) := by
    norm_num +decide [Blockchain.addTransactionToMempool, Transaction.isValid,
      Transaction.isCoinbase, txC1b, txC1a, bcC1, usetC1, checkTxInputs,
      UTXOSet.getUTXO, UTXOSet.empty, UTXOSet.addUTXO, UTXO.mkFresh, UTXO.getKey,
      mapGet, mapSet, setAdd, Transaction.validateScript, zeros64,
      Transaction.getInputAmount, Transaction.getOutputAmount,
      TransactionOutput.mkFresh, Blockchain.checkDoubleSpending, buildInputKeys,
      checkMempoolConflicts, List.find?, Option.isSome]
  exact ⟨h.1, h.2.1, herr, rfl⟩

/-! ## Claim C7 -/

/-- C7 counterexample: bcC7 sits at height 10 — a retarget boundary —
with difficulty already at the cap 20, and its last 10-block interval
took 20000 ms against the expected 100000 ms, a ratio of exactly 1/5.
The frozen claim promises an increase for such an interval, but
adjustDifficulty leaves the difficulty clamped at 20. -/
theorem C7_counterexample_no_increase_at_cap :
    bcC7.getHeight = 10 ∧
    bcC7.difficulty = 20 ∧
    (Blockchain.adjustDifficulty bcC7).difficulty = 20 := by
  refine ⟨by decide, rfl, ?_⟩
  have hcalc : ∀ a e : ℚ, a / e < 1/4 → adjustDifficultyCalc 20 a e = 20 := by
    intro a e h
    unfold adjustDifficultyCalc
    rw [if_pos h]
    decide
  unfold Blockchain.adjustDifficulty
  have h1 : ¬ bcC7.getHeight % difficultyAdjustmentInterval ≠ 0 := by decide
  have h2 : ¬ bcC7.getHeight < difficultyAdjustmentInterval := by decide
  rw [if_neg h1, if_neg h2]
  have h3 : bcC7.chain.getLast? = some (mkBlockTS 20000 10) := by decide
  have h4 : bcC7.chain.get? (bcC7.getHeight - difficultyAdjustmentInterval)
      = some (mkBlockTS 0 0) := by decide
  rw [h3, h4]
  show adjustDifficultyCalc bcC7.difficulty
    (((mkBlockTS 20000 10).header.timestamp - (mkBlockTS 0 0).header.timestamp : Int) : ℚ)
    ((bcC7.targetBlockTime : ℚ) * (difficultyAdjustmentInterval : ℚ)) = 20
  have hd20 : bcC7.difficulty = 20 := rfl
  rw [hd20]
  apply hcalc
  norm_num [mkBlockTS, bcC7, difficultyAdjustmentInterval]

/-- C7 (amended): adjustDifficulty is the identity away from a positive
multiple of the 10-block interval, and at a boundary it updates the
difficulty by adjustDifficultyCalc over the measured and expected
interval times.  The calculation follows the four coarse ratio bands of
the code — ratio below 1/4 gives min(d+2, 4d), below 1/2 gives
min(d+1, 2d), above 4 gives max 1 (d/4), above 2 gives max 1 (d/2), and
the middle band keeps d — each clamped to at most 20, so the result
always lies in [1, maxDifficulty]; the increase promised by the claim is
strict only below the cap, and the decrease only above floor 1. -/
theorem C7_difficulty_bands (bc : Blockchain) (d : Nat) (a e : ℚ)
    (hd : 1 ≤ d) (he : 0 < e) :
    (bc.getHeight % difficultyAdjustmentInterval ≠ 0 → bc.adjustDifficulty = bc) ∧
    (bc.getHeight < difficultyAdjustmentInterval → bc.adjustDifficulty = bc) ∧
    (∀ lb pb, bc.getHeight % difficultyAdjustmentInterval = 0 →
      ¬ bc.getHeight < difficultyAdjustmentInterval →
      bc.chain.getLast? = some lb →
      bc.chain.get? (bc.getHeight - difficultyAdjustmentInterval) = some pb →
      bc.adjustDifficulty.difficulty
        = adjustDifficultyCalc bc.difficulty
            ((lb.header.timestamp - pb.header.timestamp : Int) : ℚ)
            ((bc.targetBlockTime : ℚ) * (difficultyAdjustmentInterval : ℚ))) ∧
    (1 ≤ adjustDifficultyCalc d a e ∧ adjustDifficultyCalc d a e ≤ maxDifficulty) ∧
    (a / e < 1/4 →
      adjustDifficultyCalc d a e = min (min (d + 2) (d * 4)) maxDifficulty) ∧
    (1/4 ≤ a / e → a / e < 1/2 →
      adjustDifficultyCalc d a e = min (min (d + 1) (d * 2)) maxDifficulty) ∧
    (4 < a / e →
      adjustDifficultyCalc d a e = min (max 1 (d / 4)) maxDifficulty) ∧
    (2 < a / e → a / e ≤ 4 →
      adjustDifficultyCalc d a e = min (max 1 (d / 2)) maxDifficulty) ∧
    (1/2 ≤ a / e → a / e ≤ 2 →
      adjustDifficultyCalc d a e = min d maxDifficulty) ∧
    (a / e < 1/2 → d < maxDifficulty → d < adjustDifficultyCalc d a e) ∧
    (2 < a / e → 1 < d → adjustDifficultyCalc d a e < d) := by
  have hband1 : a / e < 1/4 →
      adjustDifficultyCalc d a e = min (min (d + 2) (d * 4)) maxDifficulty := by
    intro h
    unfold adjustDifficultyCalc
    rw [if_pos h]
  have hband2 : ¬ a / e < 1/4 → a / e < 1/2 →
      adjustDifficultyCalc d a e = min (min (d + 1) (d * 2)) maxDifficulty := by
    intro h1 h2
    unfold adjustDifficultyCalc
    rw [if_neg h1, if_pos h2]
  have hband3 : 4 < a / e →
      adjustDifficultyCalc d a e = min (max 1 (d / 4)) maxDifficulty := by
    intro h
    unfold adjustDifficultyCalc
    rw [if_neg (by linarith), if_neg (by linarith), if_pos h]
  have hband4 : 2 < a / e → a / e ≤ 4 →
      adjustDifficultyCalc d a e = min (max 1 (d / 2)) maxDifficulty := by
    intro h1 h2
    unfold adjustDifficultyCalc
    rw [if_neg (by linarith), if_neg (by linarith), if_neg (by linarith), if_pos h1]
  have hband5 : 1/2 ≤ a / e → a / e ≤ 2 →
      adjustDifficultyCalc d a e = min d maxDifficulty := by
    intro h1 h2
    unfold adjustDifficultyCalc
    rw [if_neg (by linarith), if_neg (by linarith), if_neg (by linarith),
      if_neg (by linarith)]
  refine ⟨?_, ?_, ?_, ?_, hband1, fun h1 h2 => hband2 (by linarith) h2, hband3,
    hband4, hband5, ?_, ?_⟩
  · intro h
    unfold Blockchain.adjustDifficulty
    rw [if_pos h]
  · intro h
    unfold Blockchain.adjustDifficulty
    by_cases h0 : bc.getHeight % difficultyAdjustmentInterval ≠ 0
    · rw [if_pos h0]
    · rw [if_neg h0, if_pos h]
  · intro lb pb h1 h2 h3 h4
    unfold Blockchain.adjustDifficulty
    rw [if_neg (fun hh => hh h1), if_neg h2, h3, h4]
  · by_cases h1 : a / e < 1/4
    · rw [hband1 h1]
      unfold maxDifficulty
      omega
    · by_cases h2 : a / e < 1/2
      · rw [hband2 h1 h2]
        unfold maxDifficulty
        omega
      · by_cases h3 : 4 < a / e
        · rw [hband3 h3]
          unfold maxDifficulty
          omega
        · by_cases h4 : 2 < a / e
          · rw [hband4 h4 (by linarith)]
            unfold maxDifficulty
            omega
          · rw [hband5 (by linarith) (by linarith)]
            unfold maxDifficulty
            omega
  · intro hlt hcap
    by_cases h1 : a / e < 1/4
    · rw [hband1 h1]
      unfold maxDifficulty at hcap ⊢
      omega
    · rw [hband2 h1 hlt]
      unfold maxDifficulty at hcap ⊢
      omega
  · intro hgt hd1
    by_cases h3 : 4 < a / e
    · rw [hband3 h3]
      unfold maxDifficulty
      omega
    · rw [hband4 hgt (by linarith)]
      unfold maxDifficulty
      omega

/-- Witness for C7: at difficulty 3 — below the cap — the 1/5-target
interval of bcC7w falls in the lowest band and the retarget strictly
increases the difficulty; the boundary equation instantiates on the
11-block chain of bcC7w. -/
theorem C7_difficulty_bands_witness :
    (1 : Nat) ≤ 3 ∧ (0 : ℚ) < 100000 ∧
    (20000 : ℚ) / 100000 < 1/4 ∧
    adjustDifficultyCalc 3 20000 100000 = min (min (3 + 2) (3 * 4)) maxDifficulty ∧
    (3 : Nat) < maxDifficulty ∧
    3 < adjustDifficultyCalc 3 20000 100000 ∧
    bcC7w.getHeight % difficultyAdjustmentInterval = 0 ∧
    (Blockchain.adjustDifficulty bcC7w).difficulty
      = adjustDifficultyCalc 3
          (((mkBlockTS 20000 10).header.timestamp
            - (mkBlockTS 0 0).header.timestamp : Int) : ℚ)
          ((bcC7w.targetBlockTime : ℚ) * (difficultyAdjustmentInterval : ℚ)) := by
  have h := C7_difficulty_bands bcC7w 3 20000 100000 (by norm_num) (by norm_num)
  refine ⟨by norm_num, by norm_num, by norm_num, h.2.2.2.2.1 (by norm_num), by decide,
    h.2.2.2.2.2.2.2.2.2.1 (by norm_num) (by decide), by decide, ?_⟩
  exact h.2.2.1 (mkBlockTS 20000 10) (mkBlockTS 0 0) (by decide) (by decide)
    (by decide) (by decide)

/-! ## Claim C8 -/

theorem mem_insertByAmount (x a : UTXO) :
    ∀ l : List UTXO, a ∈ insertByAmount x l ↔ a = x ∨ a ∈ l := by
  intro l
  induction l with
  | nil => simp [insertByAmount]
  | cons y ys ih =>
    unfold insertByAmount
    by_cases h : y.amount ≤ x.amount
    · rw [if_pos h]
      simp only [List.mem_cons, ih]
      tauto
    · rw [if_neg h]
      simp only [List.mem_cons]

/-- Inserting into an amount-sorted list keeps it sorted. -/
theorem insertByAmount_sorted (x : UTXO) :
    ∀ l : List UTXO, l.Pairwise (fun u v => u.amount ≤ v.amount) →
    (insertByAmount x l).Pairwise (fun u v => u.amount ≤ v.amount) := by
  intro l
  induction l with
  | nil =>
    intro _
    simp [insertByAmount]
  | cons y ys ih =>
    intro hs
    rw [List.pairwise_cons] at hs
    obtain ⟨hy, hys⟩ := hs
    unfold insertByAmount
    by_cases h : y.amount ≤ x.amount
    · rw [if_pos h]
      rw [List.pairwise_cons]
      refine ⟨?_, ih hys⟩
      intro a ha
      rcases (mem_insertByAmount x a ys).mp ha with ha | ha
      · subst ha
        exact h
      · exact hy a ha
    · rw [if_neg h]
      push_neg at h
      rw [List.pairwise_cons]
      refine ⟨?_, ?_⟩
      · intro a ha
        rcases List.mem_cons.mp ha with ha | ha
        · subst ha
          exact le_of_lt h
        · exact le_trans (le_of_lt h) (hy a ha)
      · rw [List.pairwise_cons]
        exact ⟨hy, hys⟩

theorem sortByAmount_sorted_aux :
    ∀ (l acc : List UTXO), acc.Pairwise (fun u v => u.amount ≤ v.amount) →
    (l.foldl (fun acc x => insertByAmount x acc) acc).Pairwise
      (fun u v => u.amount ≤ v.amount) := by
  intro l
  induction l with
  | nil =>
    intro acc h
    exact h
  | cons x xs ih =>
    intro acc h
    exact ih (insertByAmount x acc) (insertByAmount_sorted x acc h)

/-- sortByAmount sorts ascending by amount. -/
theorem sortByAmount_sorted (l : List UTXO) :
    (sortByAmount l).Pairwise (fun u v => u.amount ≤ v.amount) :=
  sortByAmount_sorted_aux l [] (by simp)

theorem insertByAmount_perm (x : UTXO) :
    ∀ l : List UTXO, (insertByAmount x l).Perm (x :: l) := by
  intro l
  induction l with
  | nil => simp [insertByAmount]
  | cons y ys ih =>
    unfold insertByAmount
    by_cases h : y.amount ≤ x.amount
    · rw [if_pos h]
      exact (ih.cons y).trans (List.Perm.swap x y ys)
    · rw [if_neg h]

theorem sortByAmount_perm_aux :
    ∀ (l acc : List UTXO),
    (l.foldl (fun acc x => insertByAmount x acc) acc).Perm (acc ++ l) := by
  intro l
  induction l with
  | nil =>
    intro acc
    simp
  | cons x xs ih =>
    intro acc
    have h1 := ih (insertByAmount x acc)
    have h2 : (insertByAmount x acc ++ xs).Perm ((x :: acc) ++ xs) :=
      (insertByAmount_perm x acc).append_right xs
    have h3 : ((x :: acc) ++ xs).Perm (acc ++ x :: xs) := by
      simp only [List.cons_append]
      exact List.perm_middle.symm
    exact (h1.trans h2).trans h3

/-- sortByAmount permutes its input. -/
theorem sortByAmount_perm (l : List UTXO) : (sortByAmount l).Perm l := by
  have h := sortByAmount_perm_aux l []
  simpa [sortByAmount] using h

/-- The greedy loop takes a prefix of the candidate list. -/
theorem greedySelect_prefix (t : ℚ) :
    ∀ (l : List UTXO) (s : ℚ), (greedySelect t l s).1 <+: l := by
  intro l
  induction l with
  | nil =>
    intro s
    exact ⟨[], rfl⟩
  | cons u rest ih =>
    intro s
    unfold greedySelect
    by_cases h : t ≤ s + u.amount
    · rw [if_pos h]
      exact ⟨rest, rfl⟩
    · rw [if_neg h]
      obtain ⟨tl, htl⟩ := ih (s + u.amount)
      exact ⟨tl, by simp [htl]⟩

/-- The running total returned by the greedy loop is the start value plus
the amounts of the taken UTXOs. -/
theorem greedySelect_sum (t : ℚ) :
    ∀ (l : List UTXO) (s : ℚ),
    (greedySelect t l s).2 = s + ((greedySelect t l s).1.map UTXO.amount).sum := by
  intro l
  induction l with
  | nil =>
    intro s
    simp [greedySelect]
  | cons u rest ih =>
    intro s
    unfold greedySelect
    by_cases h : t ≤ s + u.amount
    · rw [if_pos h]
      simp
    · rw [if_neg h]
      simp only [List.map_cons, List.sum_cons]
      rw [ih (s + u.amount)]
      ring

/-- If the loop ends below the threshold it has consumed every
candidate. -/
theorem greedySelect_exhaust (t : ℚ) :
    ∀ (l : List UTXO) (s : ℚ),
    (greedySelect t l s).2 < t → (greedySelect t l s).1 = l := by
  intro l
  induction l with
  | nil =>
    intro s _
    rfl
  | cons u rest ih =>
    intro s hlt
    unfold greedySelect at hlt ⊢
    by_cases h : t ≤ s + u.amount
    · rw [if_pos h] at hlt
      exact absurd hlt (by simpa using h)
    · rw [if_neg h] at hlt ⊢
      simp only at hlt ⊢
      rw [ih (s + u.amount) hlt]

/-- With nonnegative amounts the greedy total never exceeds the start
value plus the total of all candidates. -/
theorem greedySelect_le_total (t : ℚ) :
    ∀ (l : List UTXO) (s : ℚ), (∀ u ∈ l, 0 ≤ u.amount) →
    (greedySelect t l s).2 ≤ s + (l.map UTXO.amount).sum := by
  intro l
  induction l with
  | nil =>
    intro s _
    simp [greedySelect]
  | cons u rest ih =>
    intro s hpos
    have hrest : ∀ v ∈ rest, 0 ≤ v.amount := fun v hv => hpos v (by simp [hv])
    have hrsum : 0 ≤ (rest.map UTXO.amount).sum := by
      apply List.sum_nonneg
      intro x hx
      obtain ⟨v, hv, rfl⟩ := List.mem_map.mp hx
      exact hrest v hv
    unfold greedySelect
    by_cases h : t ≤ s + u.amount
    · rw [if_pos h]
      simp only [List.map_cons, List.sum_cons]
      linarith
    · rw [if_neg h]
      simp only [List.map_cons, List.sum_cons]
      have := ih (s + u.amount) hrest
      linarith

/-- Starting below the threshold, every proper prefix of the greedy
selection still lies below the threshold: the loop stops as soon as it
crosses it. -/
theorem greedySelect_stops_asap (t : ℚ) :
    ∀ (l : List UTXO) (s : ℚ), s < t →
    ∀ p, p <+: (greedySelect t l s).1 → p ≠ (greedySelect t l s).1 →
    s + (p.map UTXO.amount).sum < t := by
  intro l
  induction l with
  | nil =>
    intro s hs p hp hne
    have : p = [] := List.prefix_nil.mp hp
    exact absurd this hne
  | cons u rest ih =>
    intro s hs p hp hne
    unfold greedySelect at hp hne
    by_cases h : t ≤ s + u.amount
    · rw [if_pos h] at hp hne
      have hp0 : p = [] := by
        obtain ⟨tl, htl⟩ := hp
        cases p with
        | nil => rfl
        | cons a as =>
          simp only [List.cons_append, List.cons.injEq] at htl
          obtain ⟨ha, htl2⟩ := htl
          have : as = [] ∧ tl = [] := by
            constructor
            · cases as with
              | nil => rfl
              | cons b bs => exact absurd htl2 (by simp)
            · cases as with
              | nil => simpa using htl2
              | cons b bs => exact absurd htl2 (by simp)
          subst ha
          rw [this.1] at hne
          exact absurd rfl hne
      subst hp0
      simpa using hs
    · rw [if_neg h] at hp hne
      push_neg at h
      cases p with
      | nil =>
        simpa using hs
      | cons a as =>
        simp only at hp hne
        obtain ⟨tl, htl⟩ := hp
        simp only [List.cons_append, List.cons.injEq] at htl
        obtain ⟨ha, htl2⟩ := htl
        subst ha
        have has : as <+: (greedySelect t rest (s + a.amount)).1 := ⟨tl, htl2⟩
        have hasne : as ≠ (greedySelect t rest (s + a.amount)).1 := by
          intro hh
          rw [hh] at hne
          exact absurd rfl hne
        have hlt := ih (s + a.amount) h as has hasne
        simp only [List.map_cons, List.sum_cons]
        linarith

/-- C8 counterexample: with no UTXO at all for the address the selection
fails with the distinct no-available-UTXO error, not the
insufficient-funds error the claim promises for exhausted candidates. -/
theorem C8_counterexample_empty_error_kind :
    UTXOSet.selectUTXOsForPayment UTXOSet.empty "A" 3 10
      = .error .noAvailableUTXO ∧
    UTXOSet.selectUTXOsForPayment UTXOSet.empty "A" 3 10
      ≠ .error .insufficientFunds := by
  refine ⟨rfl, ?_⟩
  intro h
  rw [show UTXOSet.selectUTXOsForPayment UTXOSet.empty "A" 3 10
    = .error .noAvailableUTXO from rfl] at h
  injection h with h
  exact SelectError.noConfusion h

/-- C8 (amended): the candidates of getUTXOsByAddress come out sorted
ascending by amount; an address without candidates fails with the
distinct no-available-UTXO error (not insufficient-funds as the claim
says); a successful selection returns fee = target·rate/100, a prefix of
the sorted candidates whose total is their amount sum, reaches the
threshold, pays change = total - target - fee, and — when the threshold
is positive — stopped as soon as the threshold was crossed; and nonempty
candidates with nonnegative amounts whose total stays below the
threshold fail with insufficient-funds. -/
theorem C8_select_spec (s : UTXOSet) (addr : String) (target feePct : ℚ) :
    ((s.getUTXOsByAddress addr).Pairwise (fun u v => u.amount ≤ v.amount)) ∧
    ((sortByAmount (s.getUTXOsByAddress addr)).Perm (s.getUTXOsByAddress addr)) ∧
    (s.getUTXOsByAddress addr = [] →
      s.selectUTXOsForPayment addr target feePct = .error .noAvailableUTXO) ∧
    (∀ r, s.selectUTXOsForPayment addr target feePct = .ok r →
      r.fee = target * feePct / 100 ∧
      r.utxos <+: sortByAmount (s.getUTXOsByAddress addr) ∧
      r.totalAmount = (r.utxos.map UTXO.amount).sum ∧
      target + r.fee ≤ r.totalAmount ∧
      r.change = r.totalAmount - target - r.fee ∧
      (0 < target + r.fee → ∀ p, p <+: r.utxos → p ≠ r.utxos →
        (p.map UTXO.amount).sum < target + r.fee)) ∧
    (s.getUTXOsByAddress addr ≠ [] →
      (∀ u ∈ sortByAmount (s.getUTXOsByAddress addr), 0 ≤ u.amount) →
      ((sortByAmount (s.getUTXOsByAddress addr)).map UTXO.amount).sum
        < target + target * feePct / 100 →
      s.selectUTXOsForPayment addr target feePct = .error .insufficientFunds) := by
  refine ⟨?_, sortByAmount_perm _, ?_, ?_, ?_⟩
  · unfold UTXOSet.getUTXOsByAddress
    exact sortByAmount_sorted _
  · intro hnil
    unfold UTXOSet.selectUTXOsForPayment
    rw [if_pos (by simp [hnil])]
  · intro r hok
    unfold UTXOSet.selectUTXOsForPayment at hok
    by_cases hemp : (s.getUTXOsByAddress addr).isEmpty = true
    · rw [if_pos hemp] at hok
      exact Except.noConfusion hok
    · rw [if_neg hemp] at hok
      by_cases hins : (greedySelect (target + target * feePct / 100)
          (sortByAmount (s.getUTXOsByAddress addr)) 0).2
          < target + target * feePct / 100
      · rw [if_pos hins] at hok
        exact Except.noConfusion hok
      · rw [if_neg hins] at hok
        injection hok with hok
        subst hok
        push_neg at hins
        refine ⟨rfl, greedySelect_prefix _ _ _, ?_, by simpa using hins, rfl, ?_⟩
        · have h := greedySelect_sum (target + target * feePct / 100)
            (sortByAmount (s.getUTXOsByAddress addr)) 0
          simpa using h
        · intro hpos p hp hne
          have h := greedySelect_stops_asap (target + target * feePct / 100)
            (sortByAmount (s.getUTXOsByAddress addr)) 0 (by simpa using hpos)
            p hp hne
          simpa using h
  · intro hne hpos hsum
    unfold UTXOSet.selectUTXOsForPayment
    rw [if_neg (by simpa using hne)]
    rw [if_pos ?hcond]
    case hcond =>
      have h := greedySelect_le_total (target + target * feePct / 100)
        (sortByAmount (s.getUTXOsByAddress addr)) 0 hpos
      calc (greedySelect (target + target * feePct / 100)
            (sortByAmount (s.getUTXOsByAddress addr)) 0).2
          ≤ 0 + ((sortByAmount (s.getUTXOsByAddress addr)).map UTXO.amount).sum := h
        _ < target + target * feePct / 100 := by simpa using hsum

/-- Witness for C8: against the two A-UTXOs of amounts 5 and 2 in usetC8,
a payment of 4 at fee rate 10 percent selects the sorted prefix [2, 5]
with total 7, fee 0.4 and change 2.6. -/
theorem C8_select_spec_witness :
    UTXOSet.selectUTXOsForPayment usetC8 "A" 4 10 = .ok rC8 ∧
    rC8.fee = 4 * 10 / 100 ∧
    rC8.utxos <+: sortByAmount (usetC8.getUTXOsByAddress "A") ∧
    rC8.totalAmount = (rC8.utxos.map UTXO.amount).sum ∧
    4 + rC8.fee ≤ rC8.totalAmount ∧
    rC8.change = rC8.totalAmount - 4 - rC8.fee := by
  have hok : UTXOSet.selectUTXOsForPayment usetC8 "A" 4 10 = .ok rC8 := by
    norm_num +decide [UTXOSet.selectUTXOsForPayment, usetC8, rC8,
      UTXOSet.getUTXOsByAddress, sortByAmount, insertByAmount, greedySelect,
      mapGet, mapSet, setAdd, UTXOSet.addUTXO, UTXO.mkFresh, UTXO.getKey,
      UTXOSet.empty, Option.getD, List.isEmpty, List.filterMap]
  have h := (C8_select_spec usetC8 "A" 4 10).2.2.2.1 rC8 hok
  exact ⟨hok, h.1, h.2.1, h.2.2.1, h.2.2.2.1, h.2.2.2.2.1⟩

/-! ## Claim C9 counterexample and witness -/

/-- C9 counterexample: the well-formed set usetC9x already holds a
7-token UTXO at the outpoint (T, 0), and the transaction txC9x — id T,
one output — recreates exactly that outpoint.  processTransaction
succeeds (its inputs are live), but the subsequent rollbackTransaction
deletes the outpoint outright, so the pre-existing UTXO at (T, 0) is
destroyed rather than restored, and the address index of B keeps a
dangling entry for it: the claim fails without a freshness requirement on
the output outpoints. -/
theorem C9_counterexample_colliding_output_key :
    usetC9x.wf = true ∧
    isOkB (usetC9x.processTransaction txC9x 1) = true ∧
    mapGet ("T", 0) usetC9x.utxos = some (UTXO.mkFresh "T" 0 "B" 7 0 "B") ∧
    mapGet ("T", 0) finC9x.utxos = none ∧
    indexHasKey usetC9x "B" ("T", 0) = true ∧
    indexHasKey finC9x "B" ("T", 0) = true := by
  exact ⟨by decide, by decide, rfl, rfl, by decide, by decide⟩

/-- Witness for C9: applying txC9 — whose output outpoint (W, 0) is fresh
for usetC9 — and rolling it back restores the consumed outpoint (X, 0),
its index entry and the total supply, and removes the created outpoint. -/
theorem C9_apply_rollback_roundtrip_witness :
    usetC9.wf = true ∧
    usetC9.processTransaction txC9 1 = .ok finC9ok ∧
    mapGet ("X", 0) (finC9ok.rollbackTransaction txC9 1).utxos
      = mapGet ("X", 0) usetC9.utxos ∧
    indexHasKey (finC9ok.rollbackTransaction txC9 1) "A" ("X", 0)
      = indexHasKey usetC9 "A" ("X", 0) ∧
    (finC9ok.rollbackTransaction txC9 1).totalSupply = usetC9.totalSupply ∧
    mapGet ("W", 0) (finC9ok.rollbackTransaction txC9 1).utxos = none := by
  have hok : usetC9.processTransaction txC9 1 = .ok finC9ok := rfl
  have h := C9_apply_rollback_roundtrip usetC9 finC9ok txC9 1 (by decide)
    (fun i hi => by
      have h0 : i = 0 := Nat.lt_one_iff.mp hi
      subst h0
      rfl)
    hok
  exact ⟨by decide, hok, h.1 ("X", 0), h.2.1 "A" ("X", 0), h.2.2.1,
    h.2.2.2.1 0 (by decide)⟩

end MyBC
